import Mathlib

/-!
Shallow embedding of the simulation/model layer of the Warlord Mendicant
repository (src/game/model): unit data model and type templates
(UnitTypes.ts), unit factory (UnitFactory.ts), unit registry
(UnitManager.ts), combat resolver (CombatSystem.ts), world orchestrator
(WorldState.ts) and the tick driver's timing skeleton (GameModel.ts).

Modelling conventions, used consistently below:
* JavaScript numbers are embedded as exact rationals (`ℚ`) where the source
  computes with fractions (damage rolls, cooldowns, timestamps, positions)
  and as `ℤ`/`ℕ` where the source only ever holds integers (unit stats,
  health, ids).
* `Math.random()` results are passed in explicitly as a parameter
  `r : ℚ` with `0 ≤ r < 1`; the source notes the randomness source must be
  swappable, and every theorem quantifies over `r`.
* The `EventBus.emit` calls are modelled by returning the list of emitted
  events alongside the new state; event payloads are reduced to the ids and
  amounts involved, which is all any property below inspects.
* Mutation of a unit object through a shared reference is modelled by an
  update keyed on the unit's id in the registry's list (ids are unique in
  every reachable state, which the invariants below track).  A second,
  reference-level model (`UnitManagerRefs`) is used where aliasing itself
  is the property under study.
-/

namespace Warlord

/-- Faction tag of a unit: 'player' | 'enemy' | 'neutral' (UnitTypes.ts). -/
inductive Faction
  | player
  | enemy
  | neutral
deriving DecidableEq, Repr

/-- Position interface for unit location (UnitTypes.ts): x and y number
fields, embedded as exact rationals. -/
structure Position where
  x : ℚ
  y : ℚ
deriving DecidableEq, Repr

/-- Unit base interface (UnitTypes.ts), field for field. -/
structure Unit where
  id : ℕ
  type : String
  health : ℤ
  maxHealth : ℤ
  attack : ℤ
  defense : ℤ
  speed : ℤ
  range : ℤ
  position : Position
  selected : Bool
  faction : Faction
deriving DecidableEq, Repr

/-- Unit stat definitions by type (UnitTypes.ts `UnitStats`). -/
structure UnitStats where
  health : ℤ
  attack : ℤ
  defense : ℤ
  speed : ℤ
  range : ℤ
deriving DecidableEq, Repr

/-- Unit type definitions (UnitTypes.ts `UNIT_TYPES`): the static
`Record<string, UnitStats>` is embedded as a function from the key string
to an optional entry. -/
def UNIT_TYPES : String → Option UnitStats
  | "archer" => some { health := 60, attack := 12, defense := 3, speed := 3, range := 5 }
  | "infantry-heavy" => some { health := 120, attack := 10, defense := 8, speed := 2, range := 1 }
  | "infantry-medium" => some { health := 80, attack := 8, defense := 5, speed := 3, range := 1 }
  | "mage-high" => some { health := 50, attack := 15, defense := 2, speed := 2, range := 4 }
  | "mage-squad" => some { health := 70, attack := 10, defense := 4, speed := 3, range := 3 }
  | _ => none

/-- Events emitted on the EventBus by the model layer, reduced to the ids
and amounts the properties below inspect. -/
inductive Event
  | unitAdded (id : ℕ)
  | unitRemoved (id : ℕ)
  | unitSelected (id : ℕ)
  | unitDeselected (id : ℕ)
  | unitsSelected (ids : List ℕ)
  | unitsDeselected (ids : List ℕ)
  | unitMoved (id : ℕ)
  | unitDamaged (id : ℕ) (amount : ℤ)
  | unitHealed (id : ℕ) (amount : ℤ)
  | unitsCleared
  | combatAttack (attackerId defenderId : ℕ) (damage : ℤ) (remainingHealth : ℤ)
  | combatDefeat (attackerId defenderId : ℕ)
deriving DecidableEq, Repr

namespace CombatSystem

/-- CombatSystem.calculateDistance returns `Math.sqrt(dx*dx + dy*dy)`.
Square roots of rationals are irrational in general, so the embedding
carries the exact radicand `dx*dx + dy*dy`; every comparison the source
makes against the distance is encoded as the equivalent comparison against
the square (`Real.sqrt` is monotone), and the link to the genuine
square-root distance is proved in `isInRange_iff_sqrt`. -/
def calculateDistanceSq (pos1 pos2 : Position) : ℚ :=
  let dx := pos2.x - pos1.x
  let dy := pos2.y - pos1.y
  dx * dx + dy * dy

/-- CombatSystem.isInRange: `distance <= attacker.range * 50`.  Encoded on
squares: for a real `√s ≤ t ↔ 0 ≤ t ∧ s ≤ t^2` (`Real.sqrt_le_iff`), which
`isInRange_iff_sqrt` below certifies against the square-root form. -/
def isInRange (attacker target : Unit) : Bool :=
  decide (0 ≤ (attacker.range : ℚ) * 50 ∧
    calculateDistanceSq attacker.position target.position ≤ ((attacker.range : ℚ) * 50) ^ 2)

/-- Local `baseDamage` of CombatSystem.calculateDamage:
`attacker.attack - (defender.defense / 2)`. -/
def baseDamage (attacker defender : Unit) : ℚ :=
  (attacker.attack : ℚ) - (defender.defense : ℚ) / 2

/-- Local `minDamage` of CombatSystem.calculateDamage:
`Math.max(1, Math.floor(baseDamage * 0.8))`. -/
def minDamage (attacker defender : Unit) : ℤ :=
  max 1 ⌊baseDamage attacker defender * (0.8 : ℚ)⌋

/-- Local `maxDamage` of CombatSystem.calculateDamage:
`Math.ceil(baseDamage * 1.2)`. -/
def maxDamage (attacker defender : Unit) : ℤ :=
  ⌈baseDamage attacker defender * (1.2 : ℚ)⌉

/-- CombatSystem.calculateDamage:
`Math.floor(minDamage + Math.random() * (maxDamage - minDamage + 1))`,
with the `Math.random()` draw passed in as `r`. -/
def calculateDamage (attacker defender : Unit) (r : ℚ) : ℤ :=
  ⌊(minDamage attacker defender : ℚ) +
    r * ((maxDamage attacker defender : ℚ) - (minDamage attacker defender : ℚ) + 1)⌋

end CombatSystem

/-- State of the UnitManager class (UnitManager.ts).  The source keeps two
arrays of mutable unit objects, `units` and `selectedUnits`, the latter
holding references to objects also stored in the former; the model stores
the objects once, in `units`, and keeps `selectedIds` as the list of ids of
the objects referenced by `selectedUnits` (same order).  The module-global
factory counter `nextUnitId` of UnitFactory.ts is carried here as well so
that creation can be described as a pure step. -/
structure UnitManager where
  units : List Unit
  selectedIds : List ℕ
  nextUnitId : ℕ
deriving DecidableEq, Repr

namespace UnitManager

/-- Write through a shared object reference: the source mutates the unit
object found by id; the model rebuilds the list applying `f` at that id. -/
def updateById (id : ℕ) (f : Unit → Unit) (l : List Unit) : List Unit :=
  l.map (fun u => if u.id = id then f u else u)

/-- Inlined lookup `this.units.find(u => u.id === unitId)` every operation
of the source performs. -/
def findUnit (m : UnitManager) (id : ℕ) : Option Unit :=
  m.units.find? (fun u => u.id == id)

/-- UnitManager.getUnits: `[...this.units]` — a fresh array holding the
same elements. -/
def getUnits (m : UnitManager) : List Unit :=
  m.units

/-- UnitManager.getUnitsByFaction: `this.units.filter(u => u.faction === faction)`. -/
def getUnitsByFaction (m : UnitManager) (faction : Faction) : List Unit :=
  m.units.filter (fun u => decide (u.faction = faction))

/-- UnitManager.getSelectedUnits: `[...this.selectedUnits]`; the model
dereferences the stored ids against the live unit list, in order. -/
def getSelectedUnits (m : UnitManager) : List Unit :=
  m.selectedIds.filterMap (fun id => findUnit m id)

/-- UnitManager.addUnit: push the unit and emit 'unit-added'. -/
def addUnit (m : UnitManager) (u : Unit) : UnitManager × List Event :=
  ({ m with units := m.units ++ [u] }, [Event.unitAdded u.id])

/-- UnitManager.deselectUnit: if the id is among the selected units, clear
the found object's `selected` flag, splice it out of `selectedUnits` and
emit 'unit-deselected'; otherwise do nothing. -/
def deselectUnit (m : UnitManager) (id : ℕ) : UnitManager × List Event :=
  if id ∈ m.selectedIds then
    ({ m with
        units := updateById id (fun u => { u with selected := false }) m.units,
        selectedIds := m.selectedIds.erase id },
      [Event.unitDeselected id])
  else (m, [])

/-- UnitManager.selectUnit: find the unit; if it exists and is not already
selected, set its flag, push it onto `selectedUnits` and emit
'unit-selected'; otherwise do nothing. -/
def selectUnit (m : UnitManager) (id : ℕ) : UnitManager × List Event :=
  match findUnit m id with
  | some u =>
      if u.selected then (m, [])
      else
        ({ m with
            units := updateById id (fun v => { v with selected := true }) m.units,
            selectedIds := m.selectedIds ++ [id] },
          [Event.unitSelected id])
  | none => (m, [])

/-- UnitManager.removeUnit: no-op if the id is absent; otherwise splice the
unit out, run `deselectUnit` (the source does this after the splice, through
the object still referenced by `selectedUnits`), and emit 'unit-removed'. -/
def removeUnit (m : UnitManager) (id : ℕ) : UnitManager × List Event :=
  match findUnit m id with
  | none => (m, [])
  | some _ =>
      let m1 := { m with units := m.units.eraseP (fun u => u.id == id) }
      let r := deselectUnit m1 id
      (r.1, r.2 ++ [Event.unitRemoved id])

/-- UnitManager.deselectAll: clear the `selected` flag of every unit
referenced by `selectedUnits`, empty the selection, and emit
'units-deselected' with the previous selection if it was non-empty. -/
def deselectAll (m : UnitManager) : UnitManager × List Event :=
  let previouslySelected := m.selectedIds
  let m1 := { m with
      units := m.units.map (fun u =>
        if u.id ∈ m.selectedIds then { u with selected := false } else u),
      selectedIds := ([] : List ℕ) }
  if previouslySelected.isEmpty then (m1, [])
  else (m1, [Event.unitsDeselected previouslySelected])

/-- UnitManager.selectUnits: deselect all, then select each id in turn,
then emit a batch 'units-selected' if the final selection is non-empty. -/
def selectUnits (m : UnitManager) (ids : List ℕ) : UnitManager × List Event :=
  let r0 := deselectAll m
  let r1 := ids.foldl (fun acc id =>
      let r := selectUnit acc.1 id
      (r.1, acc.2 ++ r.2)) (r0.1, r0.2)
  if r1.1.selectedIds.isEmpty then r1
  else (r1.1, r1.2 ++ [Event.unitsSelected r1.1.selectedIds])

/-- UnitManager.moveUnit: update the position of the found unit and emit
'unit-moved'; a missing id is a logged no-op. -/
def moveUnit (m : UnitManager) (id : ℕ) (position : Position) : UnitManager × List Event :=
  match findUnit m id with
  | some _ =>
      ({ m with units := updateById id (fun u => { u with position := position }) m.units },
        [Event.unitMoved id])
  | none => (m, [])

/-- UnitManager.damageUnit: `unit.health = Math.max(0, unit.health - amount)`,
emit 'unit-damaged', and if the resulting health is ≤ 0 remove the unit and
report defeat; a missing id reports survival. -/
def damageUnit (m : UnitManager) (id : ℕ) (amount : ℤ) :
    UnitManager × List Event × Bool :=
  match findUnit m id with
  | none => (m, [], false)
  | some u =>
      let newHealth := max 0 (u.health - amount)
      let m1 := { m with units := updateById id (fun v => { v with health := newHealth }) m.units }
      if newHealth ≤ 0 then
        let r := removeUnit m1 id
        (r.1, Event.unitDamaged id amount :: r.2, true)
      else (m1, [Event.unitDamaged id amount], false)

/-- UnitManager.healUnit: `unit.health = Math.min(unit.maxHealth, unit.health + amount)`,
emitting 'unit-healed' with the actual delta only when it is positive. -/
def healUnit (m : UnitManager) (id : ℕ) (amount : ℤ) : UnitManager × List Event :=
  match findUnit m id with
  | none => (m, [])
  | some u =>
      let newHealth := min u.maxHealth (u.health + amount)
      let actualHealAmount := newHealth - u.health
      ({ m with units := updateById id (fun v => { v with health := newHealth }) m.units },
        if 0 < actualHealAmount then [Event.unitHealed id actualHealAmount] else [])

/-- UnitManager.clear: empty both lists and emit 'units-cleared'.  The
factory counter is module-global in the source and is not reset. -/
def clear (m : UnitManager) : UnitManager × List Event :=
  ({ m with units := [], selectedIds := [] }, [Event.unitsCleared])

end UnitManager

/-- UnitFactory.createUnit: look up the static template, throwing
`Unknown unit type: <type>` when absent (before the id counter is
touched); otherwise build a fresh full-health unselected unit carrying a
copy of the stats and position, consuming one id. -/
def UnitFactory.createUnit (type : String) (position : Position) (faction : Faction)
    (nextUnitId : ℕ) : Except String (Unit × ℕ) :=
  match UNIT_TYPES type with
  | none => Except.error ("Unknown unit type: " ++ type)
  | some stats =>
      Except.ok
        ({ id := nextUnitId
           type := type
           health := stats.health
           maxHealth := stats.health
           attack := stats.attack
           defense := stats.defense
           speed := stats.speed
           range := stats.range
           position := position
           selected := false
           faction := faction }, nextUnitId + 1)

/-- UnitManager.createUnit: create through the factory and add; a factory
throw propagates, leaving the registry untouched. -/
def UnitManager.createUnit (m : UnitManager) (type : String) (position : Position)
    (faction : Faction) : Except String (UnitManager × List Event) :=
  match UnitFactory.createUnit type position faction m.nextUnitId with
  | Except.error e => Except.error e
  | Except.ok (u, n) => Except.ok (UnitManager.addUnit { m with nextUnitId := n } u)

/-- CombatSystem.performAttack: return false without side effect when out
of range; otherwise roll damage, write the clamped health through the
defender reference (an object stored in the registry — modelled by the
id-keyed write-back into `m`), emit 'combat-attack', and on defeat also
emit 'combat-defeat' and return true. -/
def CombatSystem.performAttack (m : UnitManager) (attacker defender : Unit) (r : ℚ) :
    Bool × UnitManager × List Event :=
  if CombatSystem.isInRange attacker defender = false then (false, m, [])
  else
    let damage := CombatSystem.calculateDamage attacker defender r
    let newHealth := max 0 (defender.health - damage)
    let m1 := { m with
      units := UnitManager.updateById defender.id (fun u => { u with health := newHealth }) m.units }
    let defeated := decide (newHealth ≤ 0)
    let evs := [Event.combatAttack attacker.id defender.id damage newHealth]
    (defeated, m1, if defeated then evs ++ [Event.combatDefeat attacker.id defender.id] else evs)

/-- Result record of WorldState.isGameOver. -/
structure GameStatus where
  over : Bool
  winner : Option Faction
deriving DecidableEq, Repr

/-- State of the WorldState class (WorldState.ts): the owned UnitManager
and the combat cooldown table.  `Map.set` is modelled by prepending a
binding; `List.lookup` returns the most recent binding, matching
`Map.get`.  The world config is carried by no operation a claim concerns
and is omitted. -/
structure WorldState where
  unitManager : UnitManager
  combatCooldowns : List (ℕ × ℚ)
deriving DecidableEq, Repr

/-- Default cooldown base of WorldState: 1000 ms between attacks. -/
def WorldState.defaultCooldown : ℚ := 1000

/-- WorldState.processCombat: return false when the attacker is still in
cooldown (`currentTime < cooldown`, missing entry read as 0 by `|| 0`) or
either unit no longer exists; otherwise perform the attack, remove the
defender when defeated, and set the attacker's cooldown to
`currentTime + defaultCooldown * (1 / attacker.speed)`. -/
def WorldState.processCombat (w : WorldState) (attackerId defenderId : ℕ)
    (currentTime : ℚ) (r : ℚ) : Bool × WorldState × List Event :=
  let cooldown := (w.combatCooldowns.lookup attackerId).getD 0
  if currentTime < cooldown then (false, w, [])
  else
    match w.unitManager.findUnit attackerId, w.unitManager.findUnit defenderId with
    | some attacker, some defender =>
        let a := CombatSystem.performAttack w.unitManager attacker defender r
        let m2 := if a.1 then (a.2.1.removeUnit defenderId).1 else a.2.1
        let evs2 := if a.1 then (a.2.1.removeUnit defenderId).2 else []
        let attackCooldown := WorldState.defaultCooldown * (1 / (attacker.speed : ℚ))
        (a.1,
          { unitManager := m2,
            combatCooldowns := (attackerId, currentTime + attackCooldown) :: w.combatCooldowns },
          a.2.2 ++ evs2)
    | _, _ => (false, w, [])

/-- WorldState.isGameOver: enemy wins when no player units remain (checked
first), player wins when no enemy units remain, otherwise not over. -/
def WorldState.isGameOver (w : WorldState) : GameStatus :=
  let playerUnits := w.unitManager.getUnitsByFaction Faction.player
  let enemyUnits := w.unitManager.getUnitsByFaction Faction.enemy
  if playerUnits.length = 0 then { over := true, winner := some Faction.enemy }
  else if enemyUnits.length = 0 then { over := true, winner := some Faction.player }
  else { over := false, winner := none }

/-- Update interval of GameModel: 100 ms between simulation steps. -/
def GameModel.updateInterval : ℚ := 100

/-- Timing skeleton of GameModel.update(time, delta): the effect of one
call on `lastUpdate` (with `-1` the unset sentinel, as in the source)
together with whether a simulation step ran.  The simulation body the
source runs inside the step (`updateEnemyUnits`, `checkAllCombat`,
`checkGameOver`) neither reads nor writes `lastUpdate`, so this projection
is exact for the timing behaviour. -/
def GameModel.updateTiming (paused : Bool) (lastUpdate time : ℚ) : ℚ × Bool :=
  let lu := if lastUpdate = -1 then time else lastUpdate
  if paused then (lu, false)
  else if GameModel.updateInterval ≤ time - lu then (lu - GameModel.updateInterval, true)
  else (lu, false)

/-- Registry operations of the Unit Registry contract (the public mutators
of UnitManager.ts; `addUnit` is the internal helper reached through
`createUnit`).  Used to state "preserved by every registry operation". -/
inductive RegistryOp
  | create (type : String) (position : Position) (faction : Faction)
  | remove (id : ℕ)
  | select (id : ℕ)
  | deselect (id : ℕ)
  | selectMany (ids : List ℕ)
  | deselectEverything
  | move (id : ℕ) (position : Position)
  | damage (id : ℕ) (amount : ℤ)
  | heal (id : ℕ) (amount : ℤ)
  | clearAll
deriving DecidableEq, Repr

/-- Apply one registry operation; a `createUnit` throw leaves the state
unchanged (the exception propagates before any mutation). -/
def applyOp (op : RegistryOp) (m : UnitManager) : UnitManager × List Event :=
  match op with
  | RegistryOp.create t p f =>
      match m.createUnit t p f with
      | Except.ok res => res
      | Except.error _ => (m, [])
  | RegistryOp.remove id => m.removeUnit id
  | RegistryOp.select id => m.selectUnit id
  | RegistryOp.deselect id => m.deselectUnit id
  | RegistryOp.selectMany ids => m.selectUnits ids
  | RegistryOp.deselectEverything => m.deselectAll
  | RegistryOp.move id p => m.moveUnit id p
  | RegistryOp.damage id amount =>
      let r := m.damageUnit id amount
      (r.1, r.2.1)
  | RegistryOp.heal id amount => m.healUnit id amount
  | RegistryOp.clearAll => m.clear

/-- Ids of stored units are pairwise distinct and below the factory
counter; true in every reachable registry state (the factory allocates
`nextUnitId++`) and needed because object identity is modelled by id. -/
def IdsWF (m : UnitManager) : Prop :=
  (m.units.map (fun u => u.id)).Nodup ∧ ∀ i ∈ m.units.map (fun u => u.id), i < m.nextUnitId

/-- Health invariant of the data model: every stored unit is live and not
over-healed. -/
def HealthInv (m : UnitManager) : Prop :=
  ∀ u ∈ m.units, 0 < u.health ∧ u.health ≤ u.maxHealth

/-- Selection invariant: the selection list is duplicate-free and holds
exactly the ids of stored units whose `selected` flag is set. -/
def SelInv (m : UnitManager) : Prop :=
  m.selectedIds.Nodup ∧
    ∀ id, id ∈ m.selectedIds ↔ ∃ u ∈ m.units, u.id = id ∧ u.selected = true

/-- Damage and heal amounts of an operation are nonnegative; every other
operation is unrestricted.  The health invariant needs this: the source
clamps health only at 0 on damage and only at maxHealth on heal, so a
negative amount bypasses the opposite bound. -/
def amountOk : RegistryOp → Prop
  | RegistryOp.damage _ amount => 0 ≤ amount
  | RegistryOp.heal _ amount => 0 ≤ amount
  | _ => True

/-- Reference-level model of the UnitManager class, used where object
aliasing is itself the property under study.  Unit objects live in a heap
addressed by references; `units` and `selectedUnits` are arrays of
references into that heap, exactly as the source's arrays hold object
references. -/
structure UnitManagerRefs where
  heap : List (ℕ × Unit)
  unitRefs : List ℕ
  selectedRefs : List ℕ
deriving DecidableEq, Repr

namespace UnitManagerRefs

/-- UnitManager.getUnits at reference level: `[...this.units]` builds a
fresh array whose elements are the same object references. -/
def getUnits (m : UnitManagerRefs) : List ℕ :=
  m.unitRefs

/-- UnitManager.getSelectedUnits at reference level: `[...this.selectedUnits]`. -/
def getSelectedUnits (m : UnitManagerRefs) : List ℕ :=
  m.selectedRefs

/-- UnitManager.getUnitsByFaction at reference level: `filter` also returns
a fresh array of the same references. -/
def getUnitsByFaction (m : UnitManagerRefs) (faction : Faction) : List ℕ :=
  m.unitRefs.filter (fun rf =>
    decide ((m.heap.lookup rf).map (fun u => u.faction) = some faction))

/-- Caller-side mutation of a unit object reached through a returned
reference: the heap cell behind `rf` is updated in place. -/
def writeUnit (m : UnitManagerRefs) (rf : ℕ) (f : Unit → Unit) : UnitManagerRefs :=
  { m with heap := m.heap.map (fun p => if p.1 = rf then (p.1, f p.2) else p) }

/-- Units the registry itself sees through its internal `units` array. -/
def storedUnits (m : UnitManagerRefs) : List Unit :=
  m.unitRefs.filterMap (fun rf => m.heap.lookup rf)

end UnitManagerRefs

/-- Sample player archer (template stats of 'archer') at the origin. -/
def rangedUnit : Unit :=
  { id := 0, type := "archer", health := 60, maxHealth := 60, attack := 12, defense := 3,
    speed := 3, range := 5, position := { x := 0, y := 0 }, selected := false,
    faction := Faction.player }

/-- Sample enemy infantry-medium (template stats of 'infantry-medium')
placed 100 distance units from the archer. -/
def meleeUnit : Unit :=
  { id := 1, type := "infantry-medium", health := 80, maxHealth := 80, attack := 8, defense := 5,
    speed := 3, range := 1, position := { x := 100, y := 0 }, selected := false,
    faction := Faction.enemy }

/-- Registry holding the archer/infantry scenario pair. -/
def scenarioManager : UnitManager :=
  { units := [rangedUnit, meleeUnit], selectedIds := [], nextUnitId := 2 }

/-- Attacker whose attack stat is small against a high defense: the
damage-formula region where `maxDamage < minDamage`. -/
def dmgCexAttacker : Unit :=
  { id := 10, type := "militia", health := 10, maxHealth := 10, attack := 1, defense := 1,
    speed := 1, range := 1, position := { x := 0, y := 0 }, selected := false,
    faction := Faction.player }

/-- Defender with defense 5 against the attack-1 attacker, making
`baseDamage = -3/2`, `minDamage = 1` and `maxDamage = -1`. -/
def dmgCexDefender : Unit :=
  { id := 11, type := "militia", health := 10, maxHealth := 10, attack := 1, defense := 5,
    speed := 1, range := 1, position := { x := 1, y := 0 }, selected := false,
    faction := Faction.enemy }

/-- Unit at health 50 of maxHealth 60, within the health invariant. -/
def woundedUnit : Unit :=
  { id := 3, type := "archer", health := 50, maxHealth := 60, attack := 12, defense := 3,
    speed := 3, range := 5, position := { x := 0, y := 0 }, selected := false,
    faction := Faction.player }

/-- Registry with one unit at health 50 of 60, satisfying every invariant. -/
def hpCexManager : UnitManager :=
  { units := [woundedUnit], selectedIds := [], nextUnitId := 4 }

/-- Reference-level registry holding one archer object at reference 0. -/
def refManager : UnitManagerRefs :=
  { heap := [(0, rangedUnit)], unitRefs := [0], selectedRefs := [] }

/-- World containing the archer/infantry scenario with no cooldowns. -/
def scenarioWorld : WorldState :=
  { unitManager := scenarioManager, combatCooldowns := [] }

/-! ### Combat resolver facts -/

/-- Encoding certificate: the boolean range check agrees with the
square-root form of the source, `sqrt(dx*dx+dy*dy) <= attacker.range * 50`. -/
theorem isInRange_iff_sqrt (a t : Unit) :
    CombatSystem.isInRange a t = true ↔
      Real.sqrt ((CombatSystem.calculateDistanceSq a.position t.position : ℚ)) ≤
        (a.range : ℝ) * 50 := by
  rw [CombatSystem.isInRange, decide_eq_true_eq, Real.sqrt_le_iff]
  constructor
  · rintro ⟨h1, h2⟩
    exact ⟨by exact_mod_cast h1, by exact_mod_cast h2⟩
  · rintro ⟨h1, h2⟩
    exact ⟨by exact_mod_cast h1, by exact_mod_cast h2⟩

/-- Bounds of the damage roll whenever the roll interval is non-degenerate:
the floor of `minDamage + r * (maxDamage - minDamage + 1)` with
`0 ≤ r < 1` lies in `[minDamage, maxDamage]`, and `minDamage ≥ 1`. -/
theorem floor_roll_bounds (mn mx : ℤ) (r : ℚ) (h0 : 0 ≤ r) (h1 : r < 1) (h : mn ≤ mx) :
    mn ≤ ⌊(mn : ℚ) + r * ((mx : ℚ) - (mn : ℚ) + 1)⌋ ∧
      ⌊(mn : ℚ) + r * ((mx : ℚ) - (mn : ℚ) + 1)⌋ ≤ mx := by
  have hcast : (mn : ℚ) ≤ (mx : ℚ) := by exact_mod_cast h
  constructor
  · apply Int.le_floor.mpr
    have hnn : 0 ≤ r * ((mx : ℚ) - (mn : ℚ) + 1) := mul_nonneg h0 (by linarith)
    linarith
  · have hsp : r * ((mx : ℚ) - (mn : ℚ) + 1) < 1 * ((mx : ℚ) - (mn : ℚ) + 1) :=
      mul_lt_mul_of_pos_right h1 (by linarith)
    have hfl : ⌊(mn : ℚ) + r * ((mx : ℚ) - (mn : ℚ) + 1)⌋ < mx + 1 := by
      apply Int.floor_lt.mpr
      push_cast
      linarith
    omega

theorem damage_roll_bounds (a d : Unit) (r : ℚ) (h0 : 0 ≤ r) (h1 : r < 1)
    (h : CombatSystem.minDamage a d ≤ CombatSystem.maxDamage a d) :
    CombatSystem.minDamage a d ≤ CombatSystem.calculateDamage a d r ∧
      CombatSystem.calculateDamage a d r ≤ CombatSystem.maxDamage a d ∧
      1 ≤ CombatSystem.calculateDamage a d r := by
  have hb := floor_roll_bounds (CombatSystem.minDamage a d) (CombatSystem.maxDamage a d) r h0 h1 h
  have h1le : 1 ≤ CombatSystem.minDamage a d := le_max_left _ _
  rw [CombatSystem.calculateDamage]
  exact ⟨hb.1, hb.2, le_trans h1le hb.1⟩

/-- Concrete damage window of the archer-vs-infantry pair: minimum roll 7. -/
theorem minDamage_archer_infantry : CombatSystem.minDamage rangedUnit meleeUnit = 7 := by
  unfold CombatSystem.minDamage CombatSystem.baseDamage rangedUnit meleeUnit
  norm_num

/-- Concrete damage window of the archer-vs-infantry pair: maximum roll 12. -/
theorem maxDamage_archer_infantry : CombatSystem.maxDamage rangedUnit meleeUnit = 12 := by
  unfold CombatSystem.maxDamage CombatSystem.baseDamage rangedUnit meleeUnit
  rw [Int.ceil_eq_iff]
  constructor <;> norm_num

/-! ### Claim theorems -/

/-- C3 (code bug): on a simulation step (lastUpdate set, unpaused,
`time - lastUpdate ≥ updateInterval`) the source runs
`this.lastUpdate -= this.updateInterval`: at `lastUpdate = 1000`,
`time = 1150` the step fires and the new `lastUpdate` is `900`, not the
`1000 + 100 = 1100` the claim (and the code's own "10 updates per second"
comment) calls for. -/
theorem updateTiming_subtracts_interval :
    GameModel.updateTiming false 1000 1150 = (900, true) ∧
    (GameModel.updateTiming false 1000 1150).1 ≠ 1000 + GameModel.updateInterval := by
  have h : GameModel.updateTiming false 1000 1150 = (900, true) := by
    unfold GameModel.updateTiming GameModel.updateInterval
    norm_num
  refine ⟨h, ?_⟩
  rw [h]
  norm_num [GameModel.updateInterval]

/-- C2: isGameOver checks the player-empty condition first — no player
units yields an enemy win (so a doubly-empty battlefield is an enemy win),
player units and no enemy units yields a player win, and otherwise the game
is not over with no winner. -/
theorem isGameOver_cases (w : WorldState) :
    (w.unitManager.getUnitsByFaction Faction.player = [] →
      w.isGameOver = { over := true, winner := some Faction.enemy }) ∧
    (w.unitManager.getUnitsByFaction Faction.player ≠ [] →
      w.unitManager.getUnitsByFaction Faction.enemy = [] →
      w.isGameOver = { over := true, winner := some Faction.player }) ∧
    (w.unitManager.getUnitsByFaction Faction.player ≠ [] →
      w.unitManager.getUnitsByFaction Faction.enemy ≠ [] →
      w.isGameOver = { over := false, winner := none }) := by
  refine ⟨?_, ?_, ?_⟩
  · intro h
    simp [WorldState.isGameOver, h]
  · intro h1 h2
    simp [WorldState.isGameOver, h1, h2]
  · intro h1 h2
    simp [WorldState.isGameOver, h1, h2]

/-- C2 witness: the doubly-empty battlefield (simultaneous wipe) is
reported as an enemy win. -/
theorem isGameOver_cases_witness :
    WorldState.isGameOver
        { unitManager := { units := [], selectedIds := [], nextUnitId := 0 },
          combatCooldowns := [] } =
      { over := true, winner := some Faction.enemy } :=
  (isGameOver_cases _).1 rfl

/-- C9: the distance computation is symmetric in its two positions, but
the range check is not symmetric: the archer (range 5, threshold 250)
reaches the infantry 100 units away while the infantry (range 1, threshold
50) does not reach back. -/
theorem distance_symm_range_asymm :
    (∀ p q : Position,
      Real.sqrt ((CombatSystem.calculateDistanceSq p q : ℚ)) =
        Real.sqrt ((CombatSystem.calculateDistanceSq q p : ℚ))) ∧
    (∃ a b : Unit, CombatSystem.isInRange a b = true ∧ CombatSystem.isInRange b a = false) := by
  constructor
  · intro p q
    have h : CombatSystem.calculateDistanceSq p q = CombatSystem.calculateDistanceSq q p := by
      simp only [CombatSystem.calculateDistanceSq]
      ring
    rw [h]
  · refine ⟨rangedUnit, meleeUnit, ?_, ?_⟩
    · simp only [CombatSystem.isInRange, CombatSystem.calculateDistanceSq,
        rangedUnit, meleeUnit, decide_eq_true_eq]
      norm_num
    · simp only [CombatSystem.isInRange, CombatSystem.calculateDistanceSq,
        rangedUnit, meleeUnit, decide_eq_false_iff_not]
      norm_num

/-- C1 (amended): whenever `minDamage ≤ maxDamage` — which holds for every
pair of units drawn from the template table — calculateDamage returns an
integer in `[minDamage, maxDamage]`, hence ≥ 1, for every randomness draw
`0 ≤ r < 1`.  When `maxDamage < minDamage` the source does not clamp to
`minDamage` and the result can be below 1 (see the counterexample). -/
theorem calculateDamage_range (attacker defender : Unit) (r : ℚ)
    (h0 : 0 ≤ r) (h1 : r < 1)
    (h : CombatSystem.minDamage attacker defender ≤ CombatSystem.maxDamage attacker defender) :
    CombatSystem.minDamage attacker defender ≤
        CombatSystem.calculateDamage attacker defender r ∧
      CombatSystem.calculateDamage attacker defender r ≤
        CombatSystem.maxDamage attacker defender ∧
      1 ≤ CombatSystem.calculateDamage attacker defender r :=
  damage_roll_bounds attacker defender r h0 h1 h

/-- C1 witness: the archer-vs-infantry pair at draw `r = 1/2` satisfies all
hypotheses and the roll lands in `[7, 12]`, in particular ≥ 1. -/
theorem calculateDamage_range_witness :
    ((0 : ℚ) ≤ 1 / 2 ∧ (1 / 2 : ℚ) < 1 ∧
      CombatSystem.minDamage rangedUnit meleeUnit ≤ CombatSystem.maxDamage rangedUnit meleeUnit) ∧
    (CombatSystem.minDamage rangedUnit meleeUnit ≤
        CombatSystem.calculateDamage rangedUnit meleeUnit (1 / 2) ∧
      CombatSystem.calculateDamage rangedUnit meleeUnit (1 / 2) ≤
        CombatSystem.maxDamage rangedUnit meleeUnit ∧
      1 ≤ CombatSystem.calculateDamage rangedUnit meleeUnit (1 / 2)) := by
  have hh : CombatSystem.minDamage rangedUnit meleeUnit ≤
      CombatSystem.maxDamage rangedUnit meleeUnit := by
    rw [minDamage_archer_infantry, maxDamage_archer_infantry]
    norm_num
  exact ⟨⟨by norm_num, by norm_num, hh⟩,
    calculateDamage_range rangedUnit meleeUnit (1 / 2) (by norm_num) (by norm_num) hh⟩

/-- C1 counterexample: with attack 1 against defense 5 the window is
`minDamage = 1 > maxDamage = -1`; at draw `r = 1/2` the source returns
`⌊1 + (1/2)·(-1)⌋ = 0` — not clamped to `minDamage` and not ≥ 1. -/
theorem calculateDamage_not_clamped :
    CombatSystem.maxDamage dmgCexAttacker dmgCexDefender <
      CombatSystem.minDamage dmgCexAttacker dmgCexDefender ∧
    CombatSystem.calculateDamage dmgCexAttacker dmgCexDefender (1 / 2) = 0 ∧
    ¬(1 ≤ CombatSystem.calculateDamage dmgCexAttacker dmgCexDefender (1 / 2)) ∧
    CombatSystem.calculateDamage dmgCexAttacker dmgCexDefender (1 / 2) ≠
      CombatSystem.minDamage dmgCexAttacker dmgCexDefender := by
  have hmin : CombatSystem.minDamage dmgCexAttacker dmgCexDefender = 1 := by
    unfold CombatSystem.minDamage CombatSystem.baseDamage dmgCexAttacker dmgCexDefender
    norm_num
  have hmax : CombatSystem.maxDamage dmgCexAttacker dmgCexDefender = -1 := by
    unfold CombatSystem.maxDamage CombatSystem.baseDamage dmgCexAttacker dmgCexDefender
    rw [Int.ceil_eq_iff]
    constructor <;> norm_num
  have hdmg : CombatSystem.calculateDamage dmgCexAttacker dmgCexDefender (1 / 2) = 0 := by
    rw [CombatSystem.calculateDamage, hmin, hmax]
    norm_num
  refine ⟨?_, hdmg, ?_, ?_⟩
  · rw [hmin, hmax]
    norm_num
  · rw [hdmg]
    norm_num
  · rw [hdmg, hmin]
    norm_num

/-- Range check of the scenario pair: the archer's threshold is
`5 * 50 = 250` against a distance of 100. -/
theorem isInRange_archer_infantry : CombatSystem.isInRange rangedUnit meleeUnit = true := by
  simp only [CombatSystem.isInRange, CombatSystem.calculateDistanceSq,
    rangedUnit, meleeUnit, decide_eq_true_eq]
  norm_num

/-- Evaluation of the scenario attack for any roll that does not defeat
the infantry: the written-back health is `80 - damage` and only the
'combat-attack' event fires. -/
theorem performAttack_scenario (r : ℚ)
    (hnd : ¬((80 : ℤ) - CombatSystem.calculateDamage rangedUnit meleeUnit r ≤ 0)) :
    CombatSystem.performAttack scenarioManager rangedUnit meleeUnit r =
      (false,
        { scenarioManager with units := [rangedUnit,
            { meleeUnit with health := 80 - CombatSystem.calculateDamage rangedUnit meleeUnit r }] },
        [Event.combatAttack 0 1 (CombatSystem.calculateDamage rangedUnit meleeUnit r)
          (80 - CombatSystem.calculateDamage rangedUnit meleeUnit r)]) := by
  have hnh : max 0 ((80 : ℤ) - CombatSystem.calculateDamage rangedUnit meleeUnit r) =
      80 - CombatSystem.calculateDamage rangedUnit meleeUnit r := by
    omega
  have hdec : decide ((80 : ℤ) - CombatSystem.calculateDamage rangedUnit meleeUnit r ≤ 0) =
      false := decide_eq_false hnd
  rw [CombatSystem.performAttack, isInRange_archer_infantry]
  simp only [Bool.true_eq_false, if_false, UnitManager.updateById,
    show meleeUnit.health = (80 : ℤ) from rfl, hnh, hdec,
    show scenarioManager.units = [rangedUnit, meleeUnit] from rfl,
    List.map_cons, List.map_nil,
    show rangedUnit.id = 0 from rfl, show meleeUnit.id = 1 from rfl,
    Bool.false_eq_true, reduceIte]
  norm_num

/-- C6 (amended): the archer (attack 12) attacking the infantry-medium
(defense 5, health 80) from 100 distance units is in range, and for every
draw `0 ≤ r < 1` deals between `minDamage = max(1,⌊9.5·0.8⌋) = 7` and
`maxDamage = ⌈9.5·1.2⌉ = 12` damage (the spec's `floor(10·0.8) = 8` uses
base 10 where the source computes base `12 - 5/2 = 9.5`), leaving the
infantry alive at health in `[68, 73]`. -/
theorem archer_infantry_attack (r : ℚ) (h0 : 0 ≤ r) (h1 : r < 1) :
    CombatSystem.isInRange rangedUnit meleeUnit = true ∧
    7 ≤ CombatSystem.calculateDamage rangedUnit meleeUnit r ∧
    CombatSystem.calculateDamage rangedUnit meleeUnit r ≤ 12 ∧
    (CombatSystem.performAttack scenarioManager rangedUnit meleeUnit r).1 = false ∧
    (CombatSystem.performAttack scenarioManager rangedUnit meleeUnit r).2.1.findUnit 1 =
      some { meleeUnit with health := 80 - CombatSystem.calculateDamage rangedUnit meleeUnit r } ∧
    68 ≤ 80 - CombatSystem.calculateDamage rangedUnit meleeUnit r ∧
    80 - CombatSystem.calculateDamage rangedUnit meleeUnit r ≤ 73 := by
  have hmm : CombatSystem.minDamage rangedUnit meleeUnit ≤
      CombatSystem.maxDamage rangedUnit meleeUnit := by
    rw [minDamage_archer_infantry, maxDamage_archer_infantry]
    norm_num
  obtain ⟨hlo, hhi, hpos⟩ := damage_roll_bounds rangedUnit meleeUnit r h0 h1 hmm
  rw [minDamage_archer_infantry] at hlo
  rw [maxDamage_archer_infantry] at hhi
  have hndef : ¬((80 : ℤ) - CombatSystem.calculateDamage rangedUnit meleeUnit r ≤ 0) := by
    omega
  have hpa := performAttack_scenario r hndef
  refine ⟨isInRange_archer_infantry, hlo, hhi, ?_, ?_, by omega, by omega⟩
  · rw [hpa]
  · rw [hpa]
    simp [UnitManager.findUnit, List.find?, rangedUnit, meleeUnit]

/-- C6 witness: at draw `r = 1/2` the hypotheses hold and the scenario
conclusion follows. -/
theorem archer_infantry_attack_witness :
    ((0 : ℚ) ≤ 1 / 2 ∧ (1 / 2 : ℚ) < 1) ∧
    (CombatSystem.isInRange rangedUnit meleeUnit = true ∧
      7 ≤ CombatSystem.calculateDamage rangedUnit meleeUnit (1 / 2) ∧
      CombatSystem.calculateDamage rangedUnit meleeUnit (1 / 2) ≤ 12 ∧
      (CombatSystem.performAttack scenarioManager rangedUnit meleeUnit (1 / 2)).1 = false ∧
      (CombatSystem.performAttack scenarioManager rangedUnit meleeUnit (1 / 2)).2.1.findUnit 1 =
        some { meleeUnit with
          health := 80 - CombatSystem.calculateDamage rangedUnit meleeUnit (1 / 2) } ∧
      68 ≤ 80 - CombatSystem.calculateDamage rangedUnit meleeUnit (1 / 2) ∧
      80 - CombatSystem.calculateDamage rangedUnit meleeUnit (1 / 2) ≤ 73) :=
  ⟨⟨by norm_num, by norm_num⟩, archer_infantry_attack (1 / 2) (by norm_num) (by norm_num)⟩

/-- C6 counterexample: at draw `r = 0` the roll is 7, below the claimed
minimum of 8, and the infantry is left at health 73, outside the claimed
`[68, 72]`. -/
theorem archer_infantry_attack_cex :
    CombatSystem.calculateDamage rangedUnit meleeUnit 0 = 7 ∧
    ¬(8 ≤ CombatSystem.calculateDamage rangedUnit meleeUnit 0) ∧
    (CombatSystem.performAttack scenarioManager rangedUnit meleeUnit 0).2.1.findUnit 1 =
      some { meleeUnit with health := 73 } ∧
    ¬(∃ u, (CombatSystem.performAttack scenarioManager rangedUnit meleeUnit 0).2.1.findUnit 1 =
        some u ∧ 68 ≤ u.health ∧ u.health ≤ 72) := by
  have hd0 : CombatSystem.calculateDamage rangedUnit meleeUnit 0 = 7 := by
    rw [CombatSystem.calculateDamage, minDamage_archer_infantry, maxDamage_archer_infantry]
    norm_num
  have hpa : CombatSystem.performAttack scenarioManager rangedUnit meleeUnit 0 =
      (false, { scenarioManager with units := [rangedUnit, { meleeUnit with health := 73 }] },
        [Event.combatAttack 0 1 7 73]) := by
    have h73 : (80 : ℤ) - CombatSystem.calculateDamage rangedUnit meleeUnit 0 = 73 := by
      rw [hd0]
      norm_num
    rw [performAttack_scenario 0 (by omega), h73, hd0]
  have hfind : (CombatSystem.performAttack scenarioManager rangedUnit meleeUnit 0).2.1.findUnit 1 =
      some { meleeUnit with health := 73 } := by
    rw [hpa]
    simp [UnitManager.findUnit, List.find?, rangedUnit, meleeUnit]
  refine ⟨hd0, by rw [hd0]; norm_num, hfind, ?_⟩
  rintro ⟨u, hu, h68, h72⟩
  rw [hfind] at hu
  have hu2 : u = { meleeUnit with health := 73 } := by
    exact Option.some.inj hu.symm
  rw [hu2] at h72
  simp only [meleeUnit] at h72
  omega

/-- C8: for every type name in the template table, createUnit yields a
unit with `health = maxHealth = template.health` and `selected = false`,
appended to the registry with the next id consumed; for every absent type
name it fails with the `Unknown unit type` error before any mutation — the
registry is unchanged and no id is consumed. -/
theorem createUnit_spec (m : UnitManager) (type : String) (position : Position)
    (faction : Faction) :
    (∀ stats, UNIT_TYPES type = some stats →
      ∃ u, UnitFactory.createUnit type position faction m.nextUnitId =
          Except.ok (u, m.nextUnitId + 1) ∧
        u.id = m.nextUnitId ∧ u.health = stats.health ∧ u.maxHealth = stats.health ∧
        u.selected = false ∧
        m.createUnit type position faction =
          Except.ok ({ m with units := m.units ++ [u], nextUnitId := m.nextUnitId + 1 },
            [Event.unitAdded u.id])) ∧
    (UNIT_TYPES type = none →
      UnitFactory.createUnit type position faction m.nextUnitId =
        Except.error ("Unknown unit type: " ++ type) ∧
      m.createUnit type position faction = Except.error ("Unknown unit type: " ++ type) ∧
      applyOp (RegistryOp.create type position faction) m = (m, [])) := by
  constructor
  · intro stats hstats
    refine ⟨{ id := m.nextUnitId, type := type, health := stats.health, maxHealth := stats.health, attack := stats.attack, defense := stats.defense, speed := stats.speed, range := stats.range, position := position, selected := false, faction := faction }, ?_, rfl, rfl, rfl, rfl, ?_⟩
    · simp only [UnitFactory.createUnit, hstats]
    · simp only [UnitManager.createUnit, UnitFactory.createUnit, hstats, UnitManager.addUnit]
  · intro h
    refine ⟨?_, ?_, ?_⟩
    · simp only [UnitFactory.createUnit, h]
    · simp only [UnitManager.createUnit, UnitFactory.createUnit, h]
    · simp only [applyOp, UnitManager.createUnit, UnitFactory.createUnit, h]

/-- C8 witness: the unknown type name 'dragon' is rejected by the factory
and by the registry operation, which leaves the empty registry untouched. -/
theorem createUnit_spec_witness :
    UNIT_TYPES "dragon" = none ∧
    (UnitFactory.createUnit "dragon" { x := 0, y := 0 } Faction.player 0 =
        Except.error ("Unknown unit type: " ++ "dragon") ∧
      UnitManager.createUnit { units := [], selectedIds := [], nextUnitId := 0 } "dragon"
          { x := 0, y := 0 } Faction.player =
        Except.error ("Unknown unit type: " ++ "dragon") ∧
      applyOp (RegistryOp.create "dragon" { x := 0, y := 0 } Faction.player)
          { units := [], selectedIds := [], nextUnitId := 0 } =
        ({ units := [], selectedIds := [], nextUnitId := 0 }, [])) :=
  ⟨rfl, (createUnit_spec { units := [], selectedIds := [], nextUnitId := 0 } "dragon"
      { x := 0, y := 0 } Faction.player).2 rfl⟩

/-! ### Registry bookkeeping lemmas -/

/-- Updating through an id-preserving object write leaves the id column of
the unit list unchanged. -/
theorem updateById_id_map (id : ℕ) (f : Unit → Unit) (hf : ∀ u, (f u).id = u.id)
    (l : List Unit) :
    (UnitManager.updateById id f l).map (fun u => u.id) = l.map (fun u => u.id) := by
  unfold UnitManager.updateById
  rw [List.map_map]
  apply List.map_congr_left
  intro u hu
  by_cases h : u.id = id <;> simp [h, hf]

/-- Lookup by id through an id-preserving in-place write. -/
theorem find?_id_updateById (l : List Unit) (id id2 : ℕ) (f : Unit → Unit)
    (hf : ∀ u, (f u).id = u.id) :
    (UnitManager.updateById id f l).find? (fun u => u.id == id2) =
      (l.find? (fun u => u.id == id2)).map (fun u => if u.id = id then f u else u) := by
  unfold UnitManager.updateById
  rw [List.find?_map]
  have hfun : ((fun u : Unit => u.id == id2) ∘ fun u => if u.id = id then f u else u) =
      fun u : Unit => u.id == id2 := by
    funext u
    by_cases h : u.id = id <;> simp [h, hf, Function.comp]
  rw [hfun]

/-- After splicing out the (unique) unit with a given id, no unit with
that id can be found. -/
theorem find?_eraseP_self (l : List Unit) (id : ℕ)
    (h : (l.map (fun u => u.id)).Nodup) :
    (l.eraseP (fun u => u.id == id)).find? (fun u => u.id == id) = none := by
  rw [List.find?_eq_none]
  intro v hv hpv
  have hvl : v ∈ l := List.eraseP_subset _ hv
  obtain ⟨b, l₁, l₂, hnb, hpb, hl, he⟩ :=
    @List.exists_of_eraseP Unit (fun u => u.id == id) l v hvl hpv
  rw [he] at hv
  have hbid : b.id = id := by simpa using hpb
  have hvid : v.id = id := by simpa using hpv
  rcases List.mem_append.mp hv with h1 | h2
  · have hv1 := hnb v h1
    simp [hvid] at hv1
  · rw [hl, List.map_append, List.map_cons] at h
    have hnd2 := (List.nodup_append.mp h).2.1
    rw [List.nodup_cons] at hnd2
    apply hnd2.1
    rw [hbid, ← hvid]
    exact List.mem_map_of_mem _ h2

/-- Well-formedness of ids only depends on the id column and the counter. -/
theorem idsWF_of_map_id_eq (m' m : UnitManager)
    (hu : m'.units.map (fun u => u.id) = m.units.map (fun u => u.id))
    (hn : m'.nextUnitId = m.nextUnitId) (h : IdsWF m) : IdsWF m' := by
  rw [IdsWF, hu, hn]
  exact h

/-- Splicing a unit out keeps the id column well-formed. -/
theorem idsWF_eraseP (m : UnitManager) (id : ℕ) (h : IdsWF m) :
    IdsWF { m with units := m.units.eraseP (fun u => u.id == id) } := by
  obtain ⟨h1, h2⟩ := h
  have hsub : List.Sublist ((m.units.eraseP (fun u => u.id == id)).map (fun u => u.id))
      (m.units.map (fun u => u.id)) := (List.eraseP_sublist _).map _
  constructor
  · exact h1.sublist hsub
  · intro i hi
    exact h2 i (hsub.subset hi)

/-- Appending a freshly numbered unit and bumping the counter keeps the id
column well-formed. -/
theorem idsWF_append_fresh (m : UnitManager) (u : Unit) (hu : u.id = m.nextUnitId)
    (h : IdsWF m) :
    IdsWF { m with units := m.units ++ [u], nextUnitId := m.nextUnitId + 1 } := by
  obtain ⟨h1, h2⟩ := h
  constructor
  · rw [List.map_append]
    refine List.Nodup.append h1 (List.nodup_singleton _) ?_
    intro a ha hb
    simp only [List.map_cons, List.map_nil, List.mem_singleton, hu] at hb
    subst hb
    exact absurd (h2 _ ha) (lt_irrefl _)
  · intro i hi
    rw [List.map_append] at hi
    show i < m.nextUnitId + 1
    rcases List.mem_append.mp hi with hh | hh
    · exact Nat.lt_succ_of_lt (h2 _ hh)
    · simp only [List.map_cons, List.map_nil, List.mem_singleton, hu] at hh
      omega

/-- One-step lookup in the prepend-modelled cooldown map. -/
theorem lookup_cons_self (l : List (ℕ × ℚ)) (id : ℕ) (v : ℚ) :
    ((id, v) :: l).lookup id = some v := by
  simp [List.lookup]

/-- Shape of performAttack's returned flag and registry: out of range the
call is a no-op returning false; in range the defender's clamped health is
written back and the flag reports whether it reached 0. -/
theorem performAttack_fst_snd (m : UnitManager) (a d : Unit) (r : ℚ) :
    (CombatSystem.performAttack m a d r).1 =
        (CombatSystem.isInRange a d &&
          decide (max 0 (d.health - CombatSystem.calculateDamage a d r) ≤ 0)) ∧
    (CombatSystem.performAttack m a d r).2.1 =
      (if CombatSystem.isInRange a d then { m with units := UnitManager.updateById d.id (fun u => { u with health := max 0 (d.health - CombatSystem.calculateDamage a d r) }) m.units } else m) := by
  rw [CombatSystem.performAttack]
  cases h : CombatSystem.isInRange a d <;> simp [h]

/-- Removing a unit really removes it: in an id-well-formed registry the
removed id can no longer be found. -/
theorem findUnit_removeUnit_self (m : UnitManager) (id : ℕ) (h : IdsWF m) :
    ((m.removeUnit id).1).findUnit id = none := by
  cases hf : m.findUnit id with
  | none =>
    simp only [UnitManager.removeUnit, hf]
  | some u =>
    simp only [UnitManager.removeUnit, hf, UnitManager.deselectUnit]
    split
    · show (UnitManager.updateById id (fun u => { u with selected := false })
          (m.units.eraseP (fun u => u.id == id))).find? (fun u => u.id == id) = none
      rw [find?_id_updateById _ _ _ (fun u => { u with selected := false }) (fun u => rfl),
        find?_eraseP_self m.units id h.1]
      rfl
    · show (m.units.eraseP (fun u => u.id == id)).find? (fun u => u.id == id) = none
      exact find?_eraseP_self m.units id h.1

/-- An id-preserving write-back keeps the id column well-formed. -/
theorem idsWF_updateById (m : UnitManager) (id : ℕ) (f : Unit → Unit)
    (hf : ∀ u, (f u).id = u.id) (h : IdsWF m) :
    IdsWF { m with units := UnitManager.updateById id f m.units } :=
  idsWF_of_map_id_eq _ m (updateById_id_map id f hf m.units) rfl h

/-- C7: processCombat returns false leaving world state untouched when the
attacker is cooling down or either unit is missing; otherwise it returns
performAttack's defeat flag, removes the defender exactly when defeated,
and unconditionally sets the attacker's cooldown to
`now + defaultCooldown / attacker.speed`. -/
theorem processCombat_spec (w : WorldState) (attackerId defenderId : ℕ) (now r : ℚ) :
    (now < ((w.combatCooldowns.lookup attackerId).getD 0) →
      w.processCombat attackerId defenderId now r = (false, w, [])) ∧
    (¬ now < ((w.combatCooldowns.lookup attackerId).getD 0) →
      (w.unitManager.findUnit attackerId = none ∨ w.unitManager.findUnit defenderId = none) →
      w.processCombat attackerId defenderId now r = (false, w, [])) ∧
    (∀ attacker defender,
      ¬ now < ((w.combatCooldowns.lookup attackerId).getD 0) →
      w.unitManager.findUnit attackerId = some attacker →
      w.unitManager.findUnit defenderId = some defender →
      ((w.processCombat attackerId defenderId now r).1 =
          (CombatSystem.performAttack w.unitManager attacker defender r).1 ∧
        ((w.processCombat attackerId defenderId now r).2.1.combatCooldowns.lookup attackerId =
          some (now + WorldState.defaultCooldown / (attacker.speed : ℚ))) ∧
        ((w.processCombat attackerId defenderId now r).2.1.unitManager =
          if (CombatSystem.performAttack w.unitManager attacker defender r).1 then
            ((CombatSystem.performAttack w.unitManager attacker defender r).2.1.removeUnit
              defenderId).1
          else (CombatSystem.performAttack w.unitManager attacker defender r).2.1) ∧
        (IdsWF w.unitManager →
          ((CombatSystem.performAttack w.unitManager attacker defender r).1 = true →
            (w.processCombat attackerId defenderId now r).2.1.unitManager.findUnit defenderId =
              none) ∧
          ((CombatSystem.performAttack w.unitManager attacker defender r).1 = false →
            (w.processCombat attackerId defenderId now r).2.1.unitManager.findUnit defenderId ≠
              none)))) := by
  refine ⟨?_, ?_, ?_⟩
  · intro hc
    simp only [WorldState.processCombat, if_pos hc]
  · intro hcd hmiss
    rcases hmiss with hm | hm
    · simp only [WorldState.processCombat, if_neg hcd, hm]
    · cases ha : w.unitManager.findUnit attackerId <;>
        simp only [WorldState.processCombat, if_neg hcd, ha, hm]
  · intro attacker defender hcd hA hD
    have hdid : defender.id = defenderId := by
      rw [UnitManager.findUnit] at hD
      simpa using List.find?_some hD
    refine ⟨?_, ?_, ?_, ?_⟩
    · simp only [WorldState.processCombat, if_neg hcd, hA, hD]
    · simp only [WorldState.processCombat, if_neg hcd, hA, hD]
      rw [lookup_cons_self, mul_one_div]
    · simp only [WorldState.processCombat, if_neg hcd, hA, hD]
    · intro hwf
      have hwf2 : IdsWF (CombatSystem.performAttack w.unitManager attacker defender r).2.1 := by
        rw [(performAttack_fst_snd w.unitManager attacker defender r).2]
        split
        · exact idsWF_updateById _ _ _ (fun u => rfl) hwf
        · exact hwf
      constructor
      · intro htrue
        have hred : (w.processCombat attackerId defenderId now r).2.1.unitManager =
            ((CombatSystem.performAttack w.unitManager attacker defender r).2.1.removeUnit
              defenderId).1 := by
          simp only [WorldState.processCombat, if_neg hcd, hA, hD, htrue, reduceIte]
        rw [hred]
        exact findUnit_removeUnit_self _ _ hwf2
      · intro hfalse
        have hred : (w.processCombat attackerId defenderId now r).2.1.unitManager =
            (CombatSystem.performAttack w.unitManager attacker defender r).2.1 := by
          simp only [WorldState.processCombat, if_neg hcd, hA, hD, hfalse,
            Bool.false_eq_true, if_false]
        rw [hred, (performAttack_fst_snd w.unitManager attacker defender r).2]
        split
        · show (UnitManager.updateById defender.id (fun u => { u with health := max 0 (defender.health - CombatSystem.calculateDamage attacker defender r) }) w.unitManager.units).find? (fun u => u.id == defenderId) ≠ none
          rw [find?_id_updateById _ _ _ (fun u => { u with health := max 0 (defender.health - CombatSystem.calculateDamage attacker defender r) }) (fun u => rfl)]
          rw [UnitManager.findUnit] at hD
          rw [hD]
          simp
        · rw [UnitManager.findUnit] at hD ⊢
          rw [hD]
          simp

/-- C7 witness: in the scenario world with empty cooldowns, attacking at
time 5 runs the main branch and stamps cooldown `5 + 1000/3` for the
archer. -/
theorem processCombat_spec_witness :
    (¬ (5 : ℚ) < ((scenarioWorld.combatCooldowns.lookup 0).getD 0) ∧
      scenarioWorld.unitManager.findUnit 0 = some rangedUnit ∧
      scenarioWorld.unitManager.findUnit 1 = some meleeUnit) ∧
    ((scenarioWorld.processCombat 0 1 5 (1 / 2)).1 =
        (CombatSystem.performAttack scenarioWorld.unitManager rangedUnit meleeUnit (1 / 2)).1 ∧
      (scenarioWorld.processCombat 0 1 5 (1 / 2)).2.1.combatCooldowns.lookup 0 =
        some (5 + WorldState.defaultCooldown / ((rangedUnit.speed : ℤ) : ℚ))) := by
  have h1 : ¬ (5 : ℚ) < ((scenarioWorld.combatCooldowns.lookup 0).getD 0) := by
    show ¬ (5 : ℚ) < ((List.lookup 0 [] : Option ℚ).getD 0)
    norm_num [List.lookup]
  have h2 : scenarioWorld.unitManager.findUnit 0 = some rangedUnit := rfl
  have h3 : scenarioWorld.unitManager.findUnit 1 = some meleeUnit := rfl
  obtain ⟨c1, c2, c3, c4⟩ :=
    (processCombat_spec scenarioWorld 0 1 5 (1 / 2)).2.2 rangedUnit meleeUnit h1 h2 h3
  exact ⟨⟨h1, h2, h3⟩, c1, c2⟩

/-- Heap lookup after an in-place write at a reference: exactly the cell
behind that reference is transformed. -/
theorem lookup_writeUnit (l : List (ℕ × Unit)) (rf : ℕ) (f : Unit → Unit) :
    (l.map (fun p => if p.1 = rf then (p.1, f p.2) else p)).lookup rf = (l.lookup rf).map f := by
  induction l with
  | nil => rfl
  | cons hd tl ih =>
    obtain ⟨k, v⟩ := hd
    by_cases h : k = rf
    · subst h
      simp [List.lookup_cons]
    · have h2 : (rf == k) = false := beq_eq_false_iff_ne.mpr (Ne.symm h)
      simp only [List.map_cons, if_neg h, List.lookup_cons, h2, ih]

/-- C5 (amended): the three queries return fresh arrays, so caller-side
changes to the array structure never touch the registry, and an object
write through a returned reference leaves the registry's two reference
arrays unchanged — but the write lands on the very heap cell the
registry's `units` array points to: the unit objects are shared, not
copied, so callers CAN mutate registry-stored units through a returned
reference (see the counterexample). -/
theorem queries_shallow_copy (m : UnitManagerRefs) (rf : ℕ) (f : Unit → Unit)
    (h : rf ∈ m.getUnits) :
    (m.writeUnit rf f).unitRefs = m.unitRefs ∧
    (m.writeUnit rf f).selectedRefs = m.selectedRefs ∧
    (m.writeUnit rf f).heap.lookup rf = (m.heap.lookup rf).map f :=
  ⟨rfl, rfl, lookup_writeUnit m.heap rf f⟩

/-- C5 witness: writing health 50 through reference 0 of the sample
registry keeps its reference arrays intact while updating the shared cell. -/
theorem queries_shallow_copy_witness :
    0 ∈ refManager.getUnits ∧
    ((refManager.writeUnit 0 (fun u => { u with health := 50 })).unitRefs =
        refManager.unitRefs ∧
      (refManager.writeUnit 0 (fun u => { u with health := 50 })).selectedRefs =
        refManager.selectedRefs ∧
      (refManager.writeUnit 0 (fun u => { u with health := 50 })).heap.lookup 0 =
        (refManager.heap.lookup 0).map (fun u => { u with health := 50 })) :=
  ⟨List.mem_singleton.mpr rfl,
    queries_shallow_copy refManager 0 (fun u => { u with health := 50 })
      (List.mem_singleton.mpr rfl)⟩

/-- C5 counterexample: zeroing the health of the unit object reached
through `getUnits` changes the units the registry itself stores — the
claim that no caller mutation through a returned reference can change
registry internals is false. -/
theorem queries_shallow_copy_cex :
    0 ∈ refManager.getUnits ∧
    UnitManagerRefs.storedUnits (refManager.writeUnit 0 (fun u => { u with health := 0 })) ≠
      refManager.storedUnits := by
  refine ⟨List.mem_singleton.mpr rfl, ?_⟩
  intro hcontra
  have h1 : UnitManagerRefs.storedUnits (refManager.writeUnit 0 (fun u => { u with health := 0 })) =
      [{ rangedUnit with health := 0 }] := rfl
  have h2 : refManager.storedUnits = [rangedUnit] := rfl
  rw [h1, h2] at hcontra
  injection hcontra with h3 h4
  have h5 := congrArg Unit.health h3
  simp only [rangedUnit] at h5
  exact absurd h5 (by decide)

/-! ### Invariant preservation machinery -/

/-- Mapping an id-preserving function over the units leaves the id column
unchanged. -/
theorem map_id_of_preserve (l : List Unit) (g : Unit → Unit)
    (hg : ∀ u, (g u).id = u.id) :
    (l.map g).map (fun u => u.id) = l.map (fun u => u.id) := by
  rw [List.map_map]
  apply List.map_congr_left
  intro u hu
  simp [hg]

/-- Every template in the table carries positive health. -/
theorem UNIT_TYPES_health_pos (t : String) (s : UnitStats) (h : UNIT_TYPES t = some s) :
    0 < s.health := by
  unfold UNIT_TYPES at h
  split at h <;> first
    | exact Option.noConfusion h
    | (injection h with hh; subst hh; decide)

/-- Health bounds transfer along any unit-list refinement that preserves
the health fields element-wise. -/
theorem healthInv_of_sub (m m' : UnitManager)
    (hsub : ∀ v ∈ m'.units, ∃ w ∈ m.units, v.health = w.health ∧ v.maxHealth = w.maxHealth)
    (h : HealthInv m) : HealthInv m' := by
  intro v hv
  obtain ⟨w, hw, h1, h2⟩ := hsub v hv
  rw [h1, h2]
  exact h w hw

/-- A selected-unit witness is invariant under maps that preserve id and
selection flag. -/
theorem exists_sel_map (l : List Unit) (g : Unit → Unit)
    (hg : ∀ u, (g u).id = u.id ∧ (g u).selected = u.selected) (id : ℕ) :
    (∃ u ∈ l.map g, u.id = id ∧ u.selected = true) ↔
      (∃ u ∈ l, u.id = id ∧ u.selected = true) := by
  constructor
  · rintro ⟨v, hv, h1, h2⟩
    obtain ⟨u, hu, rfl⟩ := List.mem_map.mp hv
    exact ⟨u, hu, by rw [← (hg u).1, h1], by rw [← (hg u).2, h2]⟩
  · rintro ⟨u, hu, h1, h2⟩
    refine ⟨g u, List.mem_map_of_mem _ hu, ?_, ?_⟩
    · rw [(hg u).1, h1]
    · rw [(hg u).2, h2]

/-- Members of the list after splicing by id, under unique ids: they were
already present and do not carry the spliced id. -/
theorem mem_eraseP_of_nodup (l : List Unit) (id : ℕ)
    (hnd : (l.map (fun u => u.id)).Nodup) (v : Unit)
    (hv : v ∈ l.eraseP (fun u => u.id == id)) : v ∈ l ∧ v.id ≠ id := by
  refine ⟨List.eraseP_subset _ hv, ?_⟩
  have hnone := List.find?_eq_none.mp (find?_eraseP_self l id hnd) v hv
  simpa using hnone

/-- A member that does not satisfy the predicate survives the splice. -/
theorem mem_eraseP_of_not_p (l : List Unit) (p : Unit → Bool) (w : Unit)
    (hw : w ∈ l) (hnp : ¬ p w = true) : w ∈ l.eraseP p := by
  by_cases hex : ∃ a ∈ l, p a = true
  · obtain ⟨a, ha, hpa⟩ := hex
    obtain ⟨b, l₁, l₂, hnb, hpb, hl, he⟩ := @List.exists_of_eraseP Unit p l a ha hpa
    rw [he]
    rw [hl] at hw
    rcases List.mem_append.mp hw with h1 | h2
    · exact List.mem_append_left _ h1
    · rcases List.mem_cons.mp h2 with h3 | h4
      · exact absurd hpb (h3 ▸ hnp)
      · exact List.mem_append_right _ h4
  · rw [List.eraseP_of_forall_not]
    · exact hw
    · intro a ha
      exact fun hpa => hex ⟨a, ha, hpa⟩

/-- Facts about the unit found by id: membership and its id. -/
theorem findUnit_mem (m : UnitManager) (id : ℕ) (u : Unit)
    (h : m.findUnit id = some u) : u ∈ m.units ∧ u.id = id := by
  rw [UnitManager.findUnit] at h
  exact ⟨List.mem_of_find?_eq_some h, by simpa using List.find?_some h⟩

/-- Induction principle for the select-loop of selectUnits. -/
theorem foldl_selectUnit_preserve (P : UnitManager → Prop)
    (hstep : ∀ m id, P m → P (m.selectUnit id).1)
    (ids : List ℕ) (acc : UnitManager × List Event) (h : P acc.1) :
    P ((ids.foldl (fun acc id =>
        let r := UnitManager.selectUnit acc.1 id
        (r.1, acc.2 ++ r.2)) acc).1) := by
  induction ids generalizing acc with
  | nil => exact h
  | cons x xs ih => exact ih _ (hstep _ _ h)

/-- The registry reached by selectUnits is the one after the select-loop;
the trailing batch notification does not change it. -/
theorem selectUnits_fst (m : UnitManager) (ids : List ℕ) :
    (m.selectUnits ids).1 =
      ((ids.foldl (fun acc id =>
        let r := UnitManager.selectUnit acc.1 id
        (r.1, acc.2 ++ r.2)) m.deselectAll).1) := by
  rw [UnitManager.selectUnits]
  split <;> rfl

/-- deselectUnit keeps unit ids well-formed. -/
theorem idsWF_deselectUnit (m : UnitManager) (id : ℕ) (h : IdsWF m) :
    IdsWF (m.deselectUnit id).1 := by
  rw [UnitManager.deselectUnit]
  split
  · exact idsWF_of_map_id_eq _ m
      (updateById_id_map id (fun u => { u with selected := false }) (fun u => rfl) m.units) rfl h
  · exact h

/-- selectUnit keeps unit ids well-formed. -/
theorem idsWF_selectUnit (m : UnitManager) (id : ℕ) (h : IdsWF m) :
    IdsWF (m.selectUnit id).1 := by
  cases hf : m.findUnit id with
  | none =>
    simp only [UnitManager.selectUnit, hf]
    exact h
  | some u =>
    simp only [UnitManager.selectUnit, hf]
    split
    · exact h
    · exact idsWF_of_map_id_eq _ m
        (updateById_id_map id (fun v => { v with selected := true }) (fun u => rfl) m.units) rfl h

/-- removeUnit keeps unit ids well-formed. -/
theorem idsWF_removeUnit (m : UnitManager) (id : ℕ) (h : IdsWF m) :
    IdsWF (m.removeUnit id).1 := by
  cases hf : m.findUnit id with
  | none =>
    simp only [UnitManager.removeUnit, hf]
    exact h
  | some u =>
    simp only [UnitManager.removeUnit, hf, UnitManager.deselectUnit]
    have h1 : IdsWF { m with units := m.units.eraseP (fun u => u.id == id) } :=
      idsWF_eraseP m id h
    split
    · exact idsWF_of_map_id_eq _ { m with units := m.units.eraseP (fun u => u.id == id) }
        (updateById_id_map id (fun u => { u with selected := false }) (fun u => rfl)
          (m.units.eraseP (fun u => u.id == id))) rfl h1
    · exact h1

/-- moveUnit keeps unit ids well-formed. -/
theorem idsWF_moveUnit (m : UnitManager) (id : ℕ) (p : Position) (h : IdsWF m) :
    IdsWF (m.moveUnit id p).1 := by
  cases hf : m.findUnit id with
  | none =>
    simp only [UnitManager.moveUnit, hf]
    exact h
  | some u =>
    simp only [UnitManager.moveUnit, hf]
    exact idsWF_of_map_id_eq _ m
      (updateById_id_map id (fun u => { u with position := p }) (fun u => rfl) m.units) rfl h

/-- damageUnit keeps unit ids well-formed. -/
theorem idsWF_damageUnit (m : UnitManager) (id : ℕ) (amount : ℤ) (h : IdsWF m) :
    IdsWF (m.damageUnit id amount).1 := by
  cases hf : m.findUnit id with
  | none =>
    simp only [UnitManager.damageUnit, hf]
    exact h
  | some u =>
    simp only [UnitManager.damageUnit, hf]
    have h1 : IdsWF { m with units := UnitManager.updateById id (fun v => { v with health := max 0 (u.health - amount) }) m.units } :=
      idsWF_of_map_id_eq _ m (updateById_id_map id
        (fun v => { v with health := max 0 (u.health - amount) }) (fun u => rfl) m.units) rfl h
    split
    · exact idsWF_removeUnit _ id h1
    · exact h1

/-- healUnit keeps unit ids well-formed. -/
theorem idsWF_healUnit (m : UnitManager) (id : ℕ) (amount : ℤ) (h : IdsWF m) :
    IdsWF (m.healUnit id amount).1 := by
  cases hf : m.findUnit id with
  | none =>
    simp only [UnitManager.healUnit, hf]
    exact h
  | some u =>
    simp only [UnitManager.healUnit, hf]
    exact idsWF_of_map_id_eq _ m (updateById_id_map id
      (fun v => { v with health := min u.maxHealth (u.health + amount) }) (fun u => rfl)
      m.units) rfl h

/-- clear keeps unit ids well-formed. -/
theorem idsWF_clear (m : UnitManager) (h : IdsWF m) : IdsWF (m.clear).1 := by
  constructor
  · simp [UnitManager.clear]
  · intro i hi
    simp [UnitManager.clear] at hi

/-- deselectAll keeps unit ids well-formed. -/
theorem idsWF_deselectAll (m : UnitManager) (h : IdsWF m) : IdsWF (m.deselectAll).1 := by
  simp only [UnitManager.deselectAll]
  split <;>
    exact idsWF_of_map_id_eq _ m
      (map_id_of_preserve m.units _ (fun u => by split <;> rfl)) rfl h

/-- selectUnits keeps unit ids well-formed. -/
theorem idsWF_selectUnits (m : UnitManager) (ids : List ℕ) (h : IdsWF m) :
    IdsWF (m.selectUnits ids).1 := by
  rw [selectUnits_fst]
  exact foldl_selectUnit_preserve IdsWF (fun m id h => idsWF_selectUnit m id h) ids
    m.deselectAll (idsWF_deselectAll m h)

/-- Every registry operation keeps unit ids well-formed. -/
theorem idsWF_applyOp (op : RegistryOp) (m : UnitManager) (h : IdsWF m) :
    IdsWF (applyOp op m).1 := by
  cases op with
  | create t p f =>
    cases hty : UNIT_TYPES t with
    | none =>
      simp only [applyOp, UnitManager.createUnit, UnitFactory.createUnit, hty]
      exact h
    | some stats =>
      simp only [applyOp, UnitManager.createUnit, UnitFactory.createUnit, hty,
        UnitManager.addUnit]
      exact idsWF_append_fresh m _ rfl h
  | remove id => exact idsWF_removeUnit m id h
  | select id => exact idsWF_selectUnit m id h
  | deselect id => exact idsWF_deselectUnit m id h
  | selectMany ids => exact idsWF_selectUnits m ids h
  | deselectEverything => exact idsWF_deselectAll m h
  | move id p => exact idsWF_moveUnit m id p h
  | damage id amount => exact idsWF_damageUnit m id amount h
  | heal id amount => exact idsWF_healUnit m id amount h
  | clearAll => exact idsWF_clear m h

/-- Health bounds are untouched by any map that keeps the health fields. -/
theorem healthInv_map_keep (m m' : UnitManager) (g : Unit → Unit)
    (hg : ∀ u, (g u).health = u.health ∧ (g u).maxHealth = u.maxHealth)
    (hm' : m'.units = m.units.map g) (h : HealthInv m) : HealthInv m' := by
  apply healthInv_of_sub m m'
  · rw [hm']
    intro v hv
    obtain ⟨u, hu, rfl⟩ := List.mem_map.mp hv
    exact ⟨u, hu, (hg u).1, (hg u).2⟩
  · exact h

/-- deselectUnit keeps the health invariant. -/
theorem healthInv_deselectUnit (m : UnitManager) (id : ℕ) (h : HealthInv m) :
    HealthInv (m.deselectUnit id).1 := by
  rw [UnitManager.deselectUnit]
  split
  · exact healthInv_map_keep m _ _ (fun u => ⟨by split <;> rfl, by split <;> rfl⟩) rfl h
  · exact h

/-- selectUnit keeps the health invariant. -/
theorem healthInv_selectUnit (m : UnitManager) (id : ℕ) (h : HealthInv m) :
    HealthInv (m.selectUnit id).1 := by
  cases hf : m.findUnit id with
  | none =>
    simp only [UnitManager.selectUnit, hf]
    exact h
  | some u =>
    simp only [UnitManager.selectUnit, hf]
    split
    · exact h
    · exact healthInv_map_keep m _ _ (fun u => ⟨by split <;> rfl, by split <;> rfl⟩) rfl h

/-- moveUnit keeps the health invariant. -/
theorem healthInv_moveUnit (m : UnitManager) (id : ℕ) (p : Position) (h : HealthInv m) :
    HealthInv (m.moveUnit id p).1 := by
  cases hf : m.findUnit id with
  | none =>
    simp only [UnitManager.moveUnit, hf]
    exact h
  | some u =>
    simp only [UnitManager.moveUnit, hf]
    exact healthInv_map_keep m _ _ (fun u => ⟨by split <;> rfl, by split <;> rfl⟩) rfl h

/-- deselectAll keeps the health invariant. -/
theorem healthInv_deselectAll (m : UnitManager) (h : HealthInv m) :
    HealthInv (m.deselectAll).1 := by
  simp only [UnitManager.deselectAll]
  split <;> exact healthInv_map_keep m _ _ (fun u => ⟨by split <;> rfl, by split <;> rfl⟩) rfl h

/-- clear keeps the health invariant (vacuously). -/
theorem healthInv_clear (m : UnitManager) : HealthInv (m.clear).1 := by
  intro v hv
  simp [UnitManager.clear] at hv

/-- Units surviving removeUnit were stored before and, when the removal
found its target, do not carry the removed id. -/
theorem mem_removeUnit_units (m : UnitManager) (id : ℕ)
    (hnd : (m.units.map (fun u => u.id)).Nodup) (v : Unit)
    (hv : v ∈ ((m.removeUnit id).1).units) :
    v ∈ m.units ∧ (m.findUnit id = none ∨ v.id ≠ id) := by
  cases hf : m.findUnit id with
  | none =>
    simp only [UnitManager.removeUnit, hf] at hv
    exact ⟨hv, Or.inl rfl⟩
  | some u =>
    simp only [UnitManager.removeUnit, hf, UnitManager.deselectUnit] at hv
    split at hv
    · simp only [UnitManager.updateById, List.mem_map] at hv
      obtain ⟨w, hw, rfl⟩ := hv
      obtain ⟨hw1, hw2⟩ := mem_eraseP_of_nodup m.units id hnd w hw
      rw [if_neg hw2]
      exact ⟨hw1, Or.inr hw2⟩
    · obtain ⟨hw1, hw2⟩ := mem_eraseP_of_nodup m.units id hnd v hv
      exact ⟨hw1, Or.inr hw2⟩

/-- removeUnit keeps the health invariant. -/
theorem healthInv_removeUnit (m : UnitManager) (id : ℕ)
    (hnd : (m.units.map (fun u => u.id)).Nodup) (h : HealthInv m) :
    HealthInv (m.removeUnit id).1 := by
  intro v hv
  obtain ⟨hv1, _⟩ := mem_removeUnit_units m id hnd v hv
  exact h v hv1

/-- damageUnit with a nonnegative amount keeps the health invariant: the
write floors at 0 and a floored unit is removed on the spot. -/
theorem healthInv_damageUnit (m : UnitManager) (id : ℕ) (amount : ℤ) (hamt : 0 ≤ amount)
    (hwf : IdsWF m) (h : HealthInv m) : HealthInv (m.damageUnit id amount).1 := by
  cases hf : m.findUnit id with
  | none =>
    simp only [UnitManager.damageUnit, hf]
    exact h
  | some u =>
    obtain ⟨hu_mem, hu_id⟩ := findUnit_mem m id u hf
    have hmap := updateById_id_map id
      (fun v => { v with health := max 0 (u.health - amount) }) (fun w => rfl) m.units
    simp only [UnitManager.damageUnit, hf]
    split
    · rename_i hle
      intro v hv
      have hnd1 : (({ m with units := UnitManager.updateById id (fun v => { v with health := max 0 (u.health - amount) }) m.units } : UnitManager).units.map (fun u => u.id)).Nodup := by
        rw [show ({ m with units := UnitManager.updateById id (fun v => { v with health := max 0 (u.health - amount) }) m.units } : UnitManager).units.map (fun u => u.id) = m.units.map (fun u => u.id) from hmap]
        exact hwf.1
      obtain ⟨hv1, hv2⟩ := mem_removeUnit_units _ id hnd1 v hv
      have hfind1 : ({ m with units := UnitManager.updateById id (fun v => { v with health := max 0 (u.health - amount) }) m.units } : UnitManager).findUnit id = some { u with health := max 0 (u.health - amount) } := by
        rw [UnitManager.findUnit]
        show (UnitManager.updateById id (fun v => { v with health := max 0 (u.health - amount) }) m.units).find? (fun w => w.id == id) = _
        rw [find?_id_updateById m.units id id (fun v => { v with health := max 0 (u.health - amount) }) (fun w => rfl)]
        rw [UnitManager.findUnit] at hf
        rw [hf]
        show some (if u.id = id then { u with health := max 0 (u.health - amount) } else u) = _
        rw [if_pos hu_id]
      have hvneq : v.id ≠ id := by
        rcases hv2 with hc | hc
        · rw [hfind1] at hc
          exact Option.noConfusion hc
        · exact hc
      simp only [UnitManager.updateById, List.mem_map] at hv1
      obtain ⟨w, hw, hwv⟩ := hv1
      by_cases hwid : w.id = id
      · exact absurd (by rw [← hwv, if_pos hwid]; exact hwid) hvneq
      · rw [if_neg hwid] at hwv
        rw [← hwv]
        exact h w hw
    · rename_i hgt
      intro v hv
      simp only [UnitManager.updateById, List.mem_map] at hv
      obtain ⟨w, hw, rfl⟩ := hv
      by_cases hwid : w.id = id
      · have hwu : w = u := List.inj_on_of_nodup_map hwf.1 hw hu_mem (by rw [hwid, hu_id])
        subst hwu
        rw [if_pos hwid]
        refine ⟨not_le.mp hgt, ?_⟩
        show max 0 (w.health - amount) ≤ w.maxHealth
        obtain ⟨hh1, hh2⟩ := h w hw
        apply max_le
        · omega
        · omega
      · rw [if_neg hwid]
        exact h w hw

/-- healUnit with a nonnegative amount keeps the health invariant: the
write caps at maxHealth. -/
theorem healthInv_healUnit (m : UnitManager) (id : ℕ) (amount : ℤ) (hamt : 0 ≤ amount)
    (hwf : IdsWF m) (h : HealthInv m) : HealthInv (m.healUnit id amount).1 := by
  cases hf : m.findUnit id with
  | none =>
    simp only [UnitManager.healUnit, hf]
    exact h
  | some u =>
    obtain ⟨hu_mem, hu_id⟩ := findUnit_mem m id u hf
    simp only [UnitManager.healUnit, hf]
    intro v hv
    simp only [UnitManager.updateById, List.mem_map] at hv
    obtain ⟨w, hw, rfl⟩ := hv
    by_cases hwid : w.id = id
    · have hwu : w = u := List.inj_on_of_nodup_map hwf.1 hw hu_mem (by rw [hwid, hu_id])
      subst hwu
      rw [if_pos hwid]
      obtain ⟨hh1, hh2⟩ := h w hw
      constructor
      · show 0 < min w.maxHealth (w.health + amount)
        apply lt_min <;> omega
      · show min w.maxHealth (w.health + amount) ≤ w.maxHealth
        exact min_le_left _ _
    · rw [if_neg hwid]
      exact h w hw

/-- createUnit keeps the health invariant: templates carry positive health
and the new unit starts at full health. -/
theorem healthInv_create (m : UnitManager) (t : String) (p : Position) (f : Faction)
    (h : HealthInv m) : HealthInv (applyOp (RegistryOp.create t p f) m).1 := by
  cases hty : UNIT_TYPES t with
  | none =>
    simp only [applyOp, UnitManager.createUnit, UnitFactory.createUnit, hty]
    exact h
  | some stats =>
    simp only [applyOp, UnitManager.createUnit, UnitFactory.createUnit, hty, UnitManager.addUnit]
    intro v hv
    rcases List.mem_append.mp hv with h1 | h2
    · exact h v h1
    · have hv2 := List.mem_singleton.mp h2
      rw [hv2]
      exact ⟨UNIT_TYPES_health_pos t stats hty, le_refl _⟩

/-- selectUnits keeps the health invariant. -/
theorem healthInv_selectUnits (m : UnitManager) (ids : List ℕ) (h : HealthInv m) :
    HealthInv (m.selectUnits ids).1 := by
  rw [selectUnits_fst]
  exact foldl_selectUnit_preserve HealthInv (fun m id h => healthInv_selectUnit m id h) ids
    m.deselectAll (healthInv_deselectAll m h)

/-- Every registry operation with nonnegative damage/heal amounts keeps
the health invariant. -/
theorem healthInv_applyOp (op : RegistryOp) (m : UnitManager) (hwf : IdsWF m)
    (hok : amountOk op) (h : HealthInv m) : HealthInv (applyOp op m).1 := by
  cases op with
  | create t p f => exact healthInv_create m t p f h
  | remove id => exact healthInv_removeUnit m id hwf.1 h
  | select id => exact healthInv_selectUnit m id h
  | deselect id => exact healthInv_deselectUnit m id h
  | selectMany ids => exact healthInv_selectUnits m ids h
  | deselectEverything => exact healthInv_deselectAll m h
  | move id p => exact healthInv_moveUnit m id p h
  | damage id amount => exact healthInv_damageUnit m id amount hok hwf h
  | heal id amount => exact healthInv_healUnit m id amount hok hwf h
  | clearAll => exact healthInv_clear m

/-- Selection facts are untouched by maps that keep id and the flag. -/
theorem selInv_map_keep (m m' : UnitManager) (g : Unit → Unit)
    (hg : ∀ u, (g u).id = u.id ∧ (g u).selected = u.selected)
    (hm'u : m'.units = m.units.map g) (hm's : m'.selectedIds = m.selectedIds)
    (h : SelInv m) : SelInv m' := by
  obtain ⟨h1, h2⟩ := h
  constructor
  · rw [hm's]
    exact h1
  · intro id
    rw [hm's, hm'u, exists_sel_map m.units g hg id]
    exact h2 id

/-- The registry reached by deselectAll: flags of the selected units are
cleared and the selection list is emptied. -/
theorem deselectAll_fst (m : UnitManager) :
    (m.deselectAll).1 = { m with units := m.units.map (fun u => if u.id ∈ m.selectedIds then { u with selected := false } else u), selectedIds := [] } := by
  rw [UnitManager.deselectAll]
  split <;> rfl

/-- moveUnit keeps the selection invariant. -/
theorem selInv_moveUnit (m : UnitManager) (id : ℕ) (p : Position) (h : SelInv m) :
    SelInv (m.moveUnit id p).1 := by
  cases hf : m.findUnit id with
  | none =>
    simp only [UnitManager.moveUnit, hf]
    exact h
  | some u =>
    simp only [UnitManager.moveUnit, hf]
    exact selInv_map_keep m _ _ (fun u => ⟨by split <;> rfl, by split <;> rfl⟩) rfl rfl h

/-- healUnit keeps the selection invariant. -/
theorem selInv_healUnit (m : UnitManager) (id : ℕ) (amount : ℤ) (h : SelInv m) :
    SelInv (m.healUnit id amount).1 := by
  cases hf : m.findUnit id with
  | none =>
    simp only [UnitManager.healUnit, hf]
    exact h
  | some u =>
    simp only [UnitManager.healUnit, hf]
    exact selInv_map_keep m _ _ (fun u => ⟨by split <;> rfl, by split <;> rfl⟩) rfl rfl h

/-- clear keeps the selection invariant. -/
theorem selInv_clear (m : UnitManager) : SelInv (m.clear).1 := by
  constructor
  · exact List.nodup_nil
  · intro id
    simp [UnitManager.clear]

/-- deselectAll keeps the selection invariant. -/
theorem selInv_deselectAll (m : UnitManager) (h : SelInv m) : SelInv (m.deselectAll).1 := by
  rw [deselectAll_fst]
  obtain ⟨h1, h2⟩ := h
  constructor
  · exact List.nodup_nil
  · intro id'
    simp only [List.not_mem_nil, false_iff]
    rintro ⟨v, hv, hvid, hvsel⟩
    obtain ⟨w, hw, hwv⟩ := List.mem_map.mp hv
    by_cases hwid : w.id ∈ m.selectedIds
    · rw [if_pos hwid] at hwv
      rw [← hwv] at hvsel
      exact absurd hvsel (by simp)
    · rw [if_neg hwid] at hwv
      subst hwv
      exact hwid ((h2 w.id).mpr ⟨w, hw, rfl, hvsel⟩)

/-- deselectUnit keeps the selection invariant. -/
theorem selInv_deselectUnit (m : UnitManager) (id : ℕ) (h : SelInv m) :
    SelInv (m.deselectUnit id).1 := by
  rw [UnitManager.deselectUnit]
  split
  · obtain ⟨h1, h2⟩ := h
    constructor
    · exact h1.erase id
    · intro id'
      rw [h1.mem_erase_iff]
      constructor
      · rintro ⟨hne, hmem⟩
        obtain ⟨w, hw, hwid, hwsel⟩ := (h2 id').mp hmem
        refine ⟨w, List.mem_map.mpr ⟨w, hw, if_neg (by rw [hwid]; exact hne)⟩, hwid, hwsel⟩
      · rintro ⟨v, hv, hvid, hvsel⟩
        simp only [UnitManager.updateById, List.mem_map] at hv
        obtain ⟨w, hw, hwv⟩ := hv
        by_cases hwid2 : w.id = id
        · rw [if_pos hwid2] at hwv
          rw [← hwv] at hvsel
          exact absurd hvsel (by simp)
        · rw [if_neg hwid2] at hwv
          subst hwv
          refine ⟨?_, (h2 id').mpr ⟨w, hw, hvid, hvsel⟩⟩
          rw [← hvid]
          exact hwid2
  · exact h

/-- selectUnit keeps the selection invariant. -/
theorem selInv_selectUnit (m : UnitManager) (id : ℕ) (hwf : IdsWF m) (h : SelInv m) :
    SelInv (m.selectUnit id).1 := by
  cases hf : m.findUnit id with
  | none =>
    simp only [UnitManager.selectUnit, hf]
    exact h
  | some u =>
    obtain ⟨hu_mem, hu_id⟩ := findUnit_mem m id u hf
    simp only [UnitManager.selectUnit, hf]
    split
    · exact h
    · rename_i hsel
      obtain ⟨h1, h2⟩ := h
      have hnotin : id ∉ m.selectedIds := by
        intro hmem
        obtain ⟨w, hw, hwid, hwsel⟩ := (h2 id).mp hmem
        have hwu : w = u := List.inj_on_of_nodup_map hwf.1 hw hu_mem (by rw [hwid, hu_id])
        rw [hwu] at hwsel
        exact hsel hwsel
      constructor
      · refine List.Nodup.append h1 (List.nodup_singleton id) ?_
        intro a ha hb
        rw [List.mem_singleton] at hb
        subst hb
        exact hnotin ha
      · intro id'
        constructor
        · intro hmem
          rcases List.mem_append.mp hmem with hmem1 | hmem2
          · obtain ⟨w, hw, hwid, hwsel⟩ := (h2 id').mp hmem1
            have hne : id' ≠ id := fun hcc => hnotin (hcc ▸ hmem1)
            exact ⟨w, List.mem_map.mpr ⟨w, hw, if_neg (by rw [hwid]; exact hne)⟩, hwid, hwsel⟩
          · rw [List.mem_singleton] at hmem2
            subst hmem2
            exact ⟨{ u with selected := true },
              List.mem_map.mpr ⟨u, hu_mem, if_pos hu_id⟩, hu_id, rfl⟩
        · rintro ⟨v, hv, hvid, hvsel⟩
          simp only [UnitManager.updateById, List.mem_map] at hv
          obtain ⟨w, hw, hwv⟩ := hv
          by_cases hwid2 : w.id = id
          · have hid' : id' = id := by
              rw [← hvid, ← hwv]
              simp [hwid2]
            rw [hid']
            exact List.mem_append_right _ (List.mem_singleton.mpr rfl)
          · rw [if_neg hwid2] at hwv
            subst hwv
            exact List.mem_append_left _ ((h2 id').mpr ⟨w, hw, hvid, hvsel⟩)

/-- removeUnit keeps the selection invariant. -/
theorem selInv_removeUnit (m : UnitManager) (id : ℕ) (hwf : IdsWF m) (h : SelInv m) :
    SelInv (m.removeUnit id).1 := by
  cases hf : m.findUnit id with
  | none =>
    simp only [UnitManager.removeUnit, hf]
    exact h
  | some u =>
    simp only [UnitManager.removeUnit, hf, UnitManager.deselectUnit]
    split
    · obtain ⟨h1, h2⟩ := h
      constructor
      · exact h1.erase id
      · intro id'
        rw [h1.mem_erase_iff]
        constructor
        · rintro ⟨hne, hmem⟩
          obtain ⟨w, hw, hwid, hwsel⟩ := (h2 id').mp hmem
          have hw2 : w ∈ m.units.eraseP (fun x => x.id == id) :=
            mem_eraseP_of_not_p _ _ w hw (by simp [hwid, hne])
          exact ⟨w, List.mem_map.mpr ⟨w, hw2, if_neg (by rw [hwid]; exact hne)⟩, hwid, hwsel⟩
        · rintro ⟨v, hv, hvid, hvsel⟩
          simp only [UnitManager.updateById, List.mem_map] at hv
          obtain ⟨w, hw, hwv⟩ := hv
          obtain ⟨hw1, hw2⟩ := mem_eraseP_of_nodup m.units id hwf.1 w hw
          rw [if_neg hw2] at hwv
          subst hwv
          refine ⟨?_, (h2 id').mpr ⟨w, hw1, hvid, hvsel⟩⟩
          rw [← hvid]
          exact hw2
    · rename_i hnin
      obtain ⟨h1, h2⟩ := h
      constructor
      · exact h1
      · intro id'
        constructor
        · intro hmem
          obtain ⟨w, hw, hwid, hwsel⟩ := (h2 id').mp hmem
          have hne : w.id ≠ id := by
            intro hcc
            have hid' : id' = id := by rw [← hwid, hcc]
            exact hnin (hid' ▸ hmem)
          exact ⟨w, mem_eraseP_of_not_p _ _ w hw (by simp [hne]), hwid, hwsel⟩
        · rintro ⟨v, hv, hvid, hvsel⟩
          exact (h2 id').mpr ⟨v, List.eraseP_subset _ hv, hvid, hvsel⟩

/-- damageUnit keeps the selection invariant. -/
theorem selInv_damageUnit (m : UnitManager) (id : ℕ) (amount : ℤ) (hwf : IdsWF m)
    (h : SelInv m) : SelInv (m.damageUnit id amount).1 := by
  cases hf : m.findUnit id with
  | none =>
    simp only [UnitManager.damageUnit, hf]
    exact h
  | some u =>
    simp only [UnitManager.damageUnit, hf]
    have hm1 : SelInv { m with units := UnitManager.updateById id (fun v => { v with health := max 0 (u.health - amount) }) m.units } :=
      selInv_map_keep m _ _ (fun u => ⟨by split <;> rfl, by split <;> rfl⟩) rfl rfl h
    have hwf1 : IdsWF { m with units := UnitManager.updateById id (fun v => { v with health := max 0 (u.health - amount) }) m.units } :=
      idsWF_of_map_id_eq _ m (updateById_id_map id
        (fun v => { v with health := max 0 (u.health - amount) }) (fun w => rfl) m.units) rfl hwf
    split
    · exact selInv_removeUnit _ id hwf1 hm1
    · exact hm1

/-- createUnit keeps the selection invariant: the new unit starts
unselected. -/
theorem selInv_create (m : UnitManager) (t : String) (p : Position) (f : Faction)
    (h : SelInv m) : SelInv (applyOp (RegistryOp.create t p f) m).1 := by
  cases hty : UNIT_TYPES t with
  | none =>
    simp only [applyOp, UnitManager.createUnit, UnitFactory.createUnit, hty]
    exact h
  | some stats =>
    simp only [applyOp, UnitManager.createUnit, UnitFactory.createUnit, hty, UnitManager.addUnit]
    obtain ⟨h1, h2⟩ := h
    constructor
    · exact h1
    · intro id'
      constructor
      · intro hmem
        obtain ⟨w, hw, hwid, hwsel⟩ := (h2 id').mp hmem
        exact ⟨w, List.mem_append_left _ hw, hwid, hwsel⟩
      · rintro ⟨v, hv, hvid, hvsel⟩
        rcases List.mem_append.mp hv with h3 | h4
        · exact (h2 id').mpr ⟨v, h3, hvid, hvsel⟩
        · rw [List.mem_singleton] at h4
          rw [h4] at hvsel
          exact absurd hvsel (by simp)

/-- selectUnits keeps the selection invariant. -/
theorem selInv_selectUnits (m : UnitManager) (ids : List ℕ) (hwf : IdsWF m)
    (h : SelInv m) : SelInv (m.selectUnits ids).1 := by
  rw [selectUnits_fst]
  have hp := foldl_selectUnit_preserve (fun m => IdsWF m ∧ SelInv m)
    (fun m id hp => ⟨idsWF_selectUnit m id hp.1, selInv_selectUnit m id hp.1 hp.2⟩) ids
    m.deselectAll ⟨idsWF_deselectAll m hwf, selInv_deselectAll m h⟩
  exact hp.2

/-- Every registry operation keeps the selection invariant. -/
theorem selInv_applyOp (op : RegistryOp) (m : UnitManager) (hwf : IdsWF m) (h : SelInv m) :
    SelInv (applyOp op m).1 := by
  cases op with
  | create t p f => exact selInv_create m t p f h
  | remove id => exact selInv_removeUnit m id hwf h
  | select id => exact selInv_selectUnit m id hwf h
  | deselect id => exact selInv_deselectUnit m id h
  | selectMany ids => exact selInv_selectUnits m ids hwf h
  | deselectEverything => exact selInv_deselectAll m h
  | move id p => exact selInv_moveUnit m id p h
  | damage id amount => exact selInv_damageUnit m id amount hwf h
  | heal id amount => exact selInv_healUnit m id amount h
  | clearAll => exact selInv_clear m

/-- C4 (amended): in every id-well-formed registry state satisfying the
health invariant, every registry operation whose damage/heal amount is
nonnegative preserves well-formedness and the invariant `0 < health ≤
maxHealth`; damageUnit floors health at 0 and synchronously removes the
unit exactly when the damage reaches its health (reporting defeat), and
healUnit caps health at maxHealth.  For negative amounts the clamps are
one-sided and the invariant can break (see the counterexample). -/
theorem registry_health_invariant (m : UnitManager) (hwf : IdsWF m) (h : HealthInv m) :
    (∀ op, amountOk op → IdsWF (applyOp op m).1 ∧ HealthInv (applyOp op m).1) ∧
    (∀ id amount u, 0 ≤ amount → m.findUnit id = some u →
      (u.health ≤ amount →
        (m.damageUnit id amount).1.findUnit id = none ∧
        (m.damageUnit id amount).2.2 = true) ∧
      (amount < u.health →
        (m.damageUnit id amount).1.findUnit id = some { u with health := u.health - amount } ∧
        (m.damageUnit id amount).2.2 = false)) ∧
    (∀ id amount u, 0 ≤ amount → m.findUnit id = some u →
      (m.healUnit id amount).1.findUnit id =
        some { u with health := min u.maxHealth (u.health + amount) }) := by
  refine ⟨fun op hok => ⟨idsWF_applyOp op m hwf, healthInv_applyOp op m hwf hok h⟩, ?_, ?_⟩
  · intro id amount u hamt hf
    obtain ⟨hu_mem, hu_id⟩ := findUnit_mem m id u hf
    constructor
    · intro hle
      have hle2 : max 0 (u.health - amount) ≤ 0 := max_le (le_refl 0) (by omega)
      constructor
      · simp only [UnitManager.damageUnit, hf, if_pos hle2]
        exact findUnit_removeUnit_self _ id (idsWF_of_map_id_eq _ m
          (updateById_id_map id (fun v => { v with health := max 0 (u.health - amount) })
            (fun w => rfl) m.units) rfl hwf)
      · simp only [UnitManager.damageUnit, hf, if_pos hle2]
    · intro hlt
      have hgt2 : ¬ (max 0 (u.health - amount) ≤ 0) :=
        not_le.mpr (lt_max_iff.mpr (Or.inr (by omega)))
      constructor
      · simp only [UnitManager.damageUnit, hf, if_neg hgt2]
        rw [UnitManager.findUnit]
        show (UnitManager.updateById id (fun v => { v with health := max 0 (u.health - amount) }) m.units).find? (fun w => w.id == id) = _
        rw [find?_id_updateById m.units id id
          (fun v => { v with health := max 0 (u.health - amount) }) (fun w => rfl)]
        rw [UnitManager.findUnit] at hf
        rw [hf]
        show some (if u.id = id then { u with health := max 0 (u.health - amount) } else u) = _
        rw [if_pos hu_id, max_eq_right (by omega : (0 : ℤ) ≤ u.health - amount)]
      · simp only [UnitManager.damageUnit, hf, if_neg hgt2]
  · intro id amount u hamt hf
    obtain ⟨hu_mem, hu_id⟩ := findUnit_mem m id u hf
    simp only [UnitManager.healUnit, hf]
    rw [UnitManager.findUnit]
    show (UnitManager.updateById id (fun v => { v with health := min u.maxHealth (u.health + amount) }) m.units).find? (fun w => w.id == id) = _
    rw [find?_id_updateById m.units id id
      (fun v => { v with health := min u.maxHealth (u.health + amount) }) (fun w => rfl)]
    rw [UnitManager.findUnit] at hf
    rw [hf]
    show some (if u.id = id then { u with health := min u.maxHealth (u.health + amount) } else u) = _
    rw [if_pos hu_id]

/-- C4 witness: the one-unit registry at health 50 of 60 is well-formed;
damaging it by 20 keeps both invariants and leaves it findable at
health 30. -/
theorem registry_health_invariant_witness :
    (IdsWF hpCexManager ∧ HealthInv hpCexManager ∧ (0 : ℤ) ≤ 20 ∧
      hpCexManager.findUnit 3 = some woundedUnit ∧ (20 : ℤ) < woundedUnit.health ∧
      amountOk (RegistryOp.damage 3 20)) ∧
    (IdsWF (applyOp (RegistryOp.damage 3 20) hpCexManager).1 ∧
      HealthInv (applyOp (RegistryOp.damage 3 20) hpCexManager).1) ∧
    (hpCexManager.damageUnit 3 20).1.findUnit 3 = some { woundedUnit with health := 30 } := by
  have hwf : IdsWF hpCexManager := ⟨by decide, by decide⟩
  have hinv : HealthInv hpCexManager := by
    intro u hu
    simp only [hpCexManager, List.mem_singleton] at hu
    subst hu
    decide
  have hok : amountOk (RegistryOp.damage 3 20) := by
    show (0 : ℤ) ≤ 20
    decide
  have hfind : hpCexManager.findUnit 3 = some woundedUnit := rfl
  obtain ⟨hc1, hc2, hc3⟩ := registry_health_invariant hpCexManager hwf hinv
  have hd := (hc2 3 20 woundedUnit (by decide) hfind).2 (by decide)
  have h30 : ({ woundedUnit with health := woundedUnit.health - 20 } : Unit) =
      { woundedUnit with health := 30 } := by decide
  refine ⟨⟨hwf, hinv, by decide, hfind, by decide, hok⟩, hc1 (RegistryOp.damage 3 20) hok, ?_⟩
  rw [← h30]
  exact hd.1

/-- C4 counterexample: damageUnit accepts every integer amount, and a
negative amount HEALS past maxHealth — `damageUnit(3, -20)` on the unit at
health 50 of 60 leaves it stored at health 70, breaking
`health ≤ maxHealth`; the claim's "for every integer amount" is false. -/
theorem registry_health_invariant_cex :
    (IdsWF hpCexManager ∧ HealthInv hpCexManager) ∧
    ¬ HealthInv (applyOp (RegistryOp.damage 3 (-20)) hpCexManager).1 := by
  have hinv : HealthInv hpCexManager := by
    intro u hu
    simp only [hpCexManager, List.mem_singleton] at hu
    subst hu
    decide
  refine ⟨⟨⟨by decide, by decide⟩, hinv⟩, ?_⟩
  intro hcontra
  have hmem : ({ woundedUnit with health := 70 } : Unit) ∈
      (applyOp (RegistryOp.damage 3 (-20)) hpCexManager).1.units := by
    show ({ woundedUnit with health := 70 } : Unit) ∈ [({ woundedUnit with health := 70 } : Unit)]
    exact List.mem_singleton.mpr rfl
  have hbad := hcontra _ hmem
  exact absurd hbad.2 (by decide)

/-- C10: in every id-well-formed registry state, every registry operation
preserves well-formedness and the selection invariant (selection list
duplicate-free and equal to the stored units with the flag set); selecting
an already-selected id is a no-op with no notification; deselecting erases
the entry, clears the flag and notifies once; and removing a unit also
removes it from the selection. -/
theorem selection_invariant (m : UnitManager) (hwf : IdsWF m) (h : SelInv m) :
    (∀ op, IdsWF (applyOp op m).1 ∧ SelInv (applyOp op m).1) ∧
    (∀ id u, m.findUnit id = some u → u.selected = true → m.selectUnit id = (m, [])) ∧
    (∀ id, id ∈ m.selectedIds →
      (m.deselectUnit id).1.selectedIds = m.selectedIds.erase id ∧
      (m.deselectUnit id).2 = [Event.unitDeselected id] ∧
      (m.deselectUnit id).1.findUnit id =
        (m.findUnit id).map (fun u => { u with selected := false })) ∧
    (∀ id, id ∉ (m.removeUnit id).1.selectedIds) := by
  refine ⟨fun op => ⟨idsWF_applyOp op m hwf, selInv_applyOp op m hwf h⟩, ?_, ?_, ?_⟩
  · intro id u hf hsel
    simp only [UnitManager.selectUnit, hf, hsel, reduceIte]
  · intro id hin
    refine ⟨?_, ?_, ?_⟩
    · simp only [UnitManager.deselectUnit, if_pos hin]
    · simp only [UnitManager.deselectUnit, if_pos hin]
    · simp only [UnitManager.deselectUnit, if_pos hin]
      rw [UnitManager.findUnit]
      show (UnitManager.updateById id (fun u => { u with selected := false }) m.units).find? (fun w => w.id == id) = _
      rw [find?_id_updateById m.units id id (fun u => { u with selected := false })
        (fun w => rfl)]
      rw [UnitManager.findUnit]
      cases hf : m.units.find? (fun w => w.id == id) with
      | none => rfl
      | some u =>
        have hu_id : u.id = id := by simpa using List.find?_some hf
        show some (if u.id = id then { u with selected := false } else u) =
          some { u with selected := false }
        rw [if_pos hu_id]
  · intro id
    cases hf : m.findUnit id with
    | none =>
      simp only [UnitManager.removeUnit, hf]
      intro hmem
      obtain ⟨w, hw, hwid, hwsel⟩ := (h.2 id).mp hmem
      rw [UnitManager.findUnit] at hf
      have hnone := List.find?_eq_none.mp hf w hw
      simp [hwid] at hnone
    | some u =>
      simp only [UnitManager.removeUnit, hf, UnitManager.deselectUnit]
      split
      · show id ∉ m.selectedIds.erase id
        intro hmem
        exact ((h.1.mem_erase_iff).mp hmem).1 rfl
      · rename_i hnin
        exact hnin

/-- C10 witness: the two-unit scenario registry is well-formed with an
empty selection; selecting unit 1 preserves both invariants. -/
theorem selection_invariant_witness :
    (IdsWF scenarioManager ∧ SelInv scenarioManager) ∧
    (IdsWF (applyOp (RegistryOp.select 1) scenarioManager).1 ∧
      SelInv (applyOp (RegistryOp.select 1) scenarioManager).1) := by
  have hwf : IdsWF scenarioManager := ⟨by decide, by decide⟩
  have hsel : SelInv scenarioManager := by
    constructor
    · exact List.nodup_nil
    · intro id
      constructor
      · intro hmem
        simp [scenarioManager] at hmem
      · rintro ⟨v, hv, hvid, hvsel⟩
        simp only [scenarioManager, List.mem_cons, List.mem_singleton] at hv
        rcases hv with rfl | hv2
        · exact absurd hvsel (by decide)
        · rcases hv2 with rfl | hv3
          · exact absurd hvsel (by decide)
          · simp at hv3
  exact ⟨⟨hwf, hsel⟩, (selection_invariant scenarioManager hwf hsel).1 (RegistryOp.select 1)⟩

end Warlord
